import Mathlib

/-!
Verification development for the seance-rs proxy relay.

The definitions below are a shallow embedding of the Rust sources under
`src/`: the configuration loader (`src/config.rs`), the regex wrapping and
matching used for member message patterns, the message parser
(`src/system/message_parser.rs`), the cross-bot event aggregator
(`src/system/aggregator.rs`), and the manager's latch / proxy / presence
logic (`src/system/mod.rs`).  Effectful Rust code is embedded as pure
functions over explicit state; REST-call outcomes are supplied as oracle
inputs; a Rust `panic!` / `.unwrap()` / `.expect(..)` is embedded as an
`Option` result of `none`.
-/

namespace Seance

/-- Rust `usize` member index (`type MemberId = usize`, src/system/types.rs). -/
abbrev MemberId := Nat

/-- Discord user id (`Id<UserMarker>`). -/
abbrev UserId := Nat

/-- Discord message id (`Id<MessageMarker>`). -/
abbrev MessageId := Nat

/-- Discord channel id (`Id<ChannelMarker>`). -/
abbrev ChannelId := Nat

/-- Embeds `twilight_model::util::Timestamp`: a microsecond count.
`as_secs` divides by 1 000 000 (all timestamps of interest are
non-negative, so the rounding mode is immaterial). -/
structure Timestamp where
  micros : Int
deriving DecidableEq, Repr

/-- Rust `Timestamp::as_micros`. -/
def Timestamp.asMicros (t : Timestamp) : Int := t.micros

/-- Rust `Timestamp::as_secs`. -/
def Timestamp.asSecs (t : Timestamp) : Int := t.micros / 1000000

/-- Embeds `twilight_model::gateway::presence::Status`. -/
inductive Status where
  | DoNotDisturb
  | Idle
  | Invisible
  | Offline
  | Online
deriving DecidableEq, Repr

/-- Embeds the fields of `twilight_model::channel::Message` (aliased
`FullMessage` in src/system/types.rs) that the embedded operations consult;
fields that no embedded code path reads (attachments, mentions, flags,
message kind, referenced message) are omitted. -/
structure FullMessage where
  id : MessageId
  channel_id : ChannelId
  author_id : UserId
  content : String
  timestamp : Timestamp
  edited_timestamp : Option Timestamp
deriving DecidableEq, Repr

/-- Embeds the fields of `MessageUpdate` (a partial message) that the
aggregator consults. -/
structure PartialMessage where
  id : MessageId
  channel_id : ChannelId
  edited_timestamp : Option Timestamp
  content : Option String
deriving DecidableEq, Repr

/-! ### Rust string primitives

Rust `String`s are embedded as Lean `String`s; the primitives the sources
use are defined character-wise over `String.data` so that they evaluate on
concrete inputs and admit list-level reasoning. -/

/-- Embeds Rust `str::starts_with`. -/
def strStartsWith (s p : String) : Bool := p.data.isPrefixOf s.data

/-- Embeds Rust `str::ends_with`. -/
def strEndsWith (s p : String) : Bool := p.data.reverse.isPrefixOf s.data.reverse

/-- Embeds Rust `str::contains` (substring occurrence). -/
def strContains (s p : String) : Bool := s.data.tails.any (fun t => p.data.isPrefixOf t)

/-- Embeds Rust `str::trim` (whitespace stripped from both ends; `Char.isWhitespace`
covers the whitespace actually appearing in this development). -/
def strTrim (s : String) : String :=
  String.mk (((s.data.dropWhile Char.isWhitespace).reverse.dropWhile Char.isWhitespace).reverse)

/-! ### Regex engine

`Member::message_pattern` and the `!s` command compile patterns with the
`regex` crate.  The fragment of that crate's syntax and semantics the
repository exercises is embedded here: an abstract syntax `RE`, a
backtracking matcher with the crate's leftmost-first preference order, and
a pattern parser for literals, `.`, `^`, `$`, alternation, grouping
(including `(?P<name>..)` named groups and `(?:..)`), the quantifiers
`*` `+` `?` (with lazy `?` suffix), the escapes needed by the sources, and
the non-word-boundary assertion `\B`.  Character classes and bounded
repetitions are outside the fragment and make the embedded build fail. -/

/-- Compile-time flags of `regex::RegexBuilder`. -/
structure RFlags where
  ci : Bool := false
  dotall : Bool := false
  multiline : Bool := false
  swapGreed : Bool := false
  crlf : Bool := false
  ignoreWs : Bool := false
deriving DecidableEq, Repr

/-- Regex abstract syntax.  `star lazy a` is `a*` (lazy when the `?` suffix
was present); `a+` and `a?` are desugared by the pattern parser. `nwb` is
the `\B` assertion. -/
inductive RE where
  | eps
  | lit (c : Char)
  | dot
  | bol
  | eol
  | nwb
  | seq (a b : RE)
  | alt (a b : RE)
  | star (lazy : Bool) (a : RE)
  | group (name : Option String) (a : RE)
deriving DecidableEq, Repr

/-- Structural size of a regex, the termination measure of the matcher. -/
def RE.size : RE → Nat
  | .eps | .lit _ | .dot | .bol | .eol | .nwb => 1
  | .seq a b | .alt a b => a.size + b.size + 1
  | .star _ a => a.size + 1
  | .group _ a => a.size + 1

/-- Named-capture table: group name with start and end position (character
indices) of its most recent match. -/
abbrev Caps := List (String × Nat × Nat)

/-- Record the span of a named group, overriding an earlier span. -/
def setCap (name : Option String) (i j : Nat) (caps : Caps) : Caps :=
  match name with
  | none => caps
  | some n => (n, i, j) :: caps.filter (fun e => !(e.1 == n))

/-- Look up the span of a named group. -/
def capLookup (caps : Caps) (n : String) : Option (Nat × Nat) :=
  (caps.find? (fun e => e.1 == n)).map (·.2)

/-- Single-character match, honouring `case_insensitive` (simple lowercase
folding, which agrees with the crate on the inputs of this development). -/
def charEq (fl : RFlags) (pat c : Char) : Bool :=
  pat == c || (fl.ci && (pat.toLower == c.toLower))

/-- Whether `.` matches the character `c`. -/
def dotMatches (fl : RFlags) (c : Char) : Bool :=
  fl.dotall || !(c == '\n' || (fl.crlf && c == '\r'))

/-- Whether `^` holds at position `i`. -/
def bolOk (fl : RFlags) (input : List Char) (i : Nat) : Bool :=
  i == 0 ||
    (fl.multiline &&
      match input[i-1]? with
      | some c => c == '\n' || (fl.crlf && c == '\r')
      | none => false)

/-- Whether `$` holds at position `i`. -/
def eolOk (fl : RFlags) (input : List Char) (i : Nat) : Bool :=
  i == input.length ||
    (fl.multiline &&
      match input[i]? with
      | some c => c == '\n' || (fl.crlf && c == '\r')
      | none => false)

/-- Word character, for the `\B` assertion. -/
def isWordChar (c : Char) : Bool := c.isAlphanum || c == '_'

/-- Whether a word boundary holds at position `i`. -/
def wordBoundary (input : List Char) (i : Nat) : Bool :=
  let before := match input[i-1]? with
    | some c => i ≠ 0 && isWordChar c
    | none => false
  let after := match input[i]? with
    | some c => isWordChar c
    | none => false
  before != after

/-- Backtracking matcher: the ways `re` can match starting at position `i`,
listed in the `regex` crate's leftmost-first preference order; each result
is the end position together with the named-capture table.  `fuel` bounds
star unrolling and only decreases on star iterations, which the progress
filter restricts to input-consuming ones. -/
def matchAtF (fl : RFlags) (input : List Char) : Nat → RE → Nat → Caps → List (Nat × Caps)
  | 0, _, _, _ => []
  | fuel+1, re, i, caps =>
      match re with
      | .eps => [(i, caps)]
      | .lit c =>
          match input[i]? with
          | some c' => if charEq fl c c' then [(i+1, caps)] else []
          | none => []
      | .dot =>
          match input[i]? with
          | some c' => if dotMatches fl c' then [(i+1, caps)] else []
          | none => []
      | .bol => if bolOk fl input i then [(i, caps)] else []
      | .eol => if eolOk fl input i then [(i, caps)] else []
      | .nwb => if wordBoundary input i then [] else [(i, caps)]
      | .seq a b =>
          (matchAtF fl input fuel a i caps).flatMap (fun r => matchAtF fl input fuel b r.1 r.2)
      | .alt a b =>
          matchAtF fl input fuel a i caps ++ matchAtF fl input fuel b i caps
      | .group name a =>
          (matchAtF fl input fuel a i caps).map (fun r => (r.1, setCap name i r.1 r.2))
      | .star lz a =>
          let once := (matchAtF fl input fuel a i caps).filter (fun r => i < r.1)
          let more := once.flatMap (fun r => matchAtF fl input fuel (.star lz a) r.1 r.2)
          if lz != fl.swapGreed then (i, caps) :: more else more ++ [(i, caps)]

/-- Fuel that is ample for every concrete input of this development (the
matcher's call depth is bounded by the pattern size times the number of
input-consuming star iterations). -/
def matchFuel (input : List Char) (re : RE) : Nat := (re.size + 2) * (input.length + 2)

/-- `Regex::captures` search: try start positions left to right; at the
first position admitting a match return the preferred one as
(start, end, captures).  `k` counts the candidate positions left. -/
def reFindFrom (fl : RFlags) (input : List Char) (re : RE) : Nat → Nat → Option (Nat × Nat × Caps)
  | _, 0 => none
  | p, k+1 =>
      match matchAtF fl input (matchFuel input re) re p [] with
      | r :: _ => some (p, r.1, r.2)
      | [] => reFindFrom fl input re (p+1) k

/-- A compiled regex: syntax plus the builder flags. -/
structure CompiledRegex where
  re : RE
  flags : RFlags
deriving DecidableEq, Repr

/-- `Regex::captures` on a string. -/
def reCaptures (cr : CompiledRegex) (s : String) : Option (Nat × Nat × Caps) :=
  reFindFrom cr.flags s.data cr.re 0 (s.data.length + 1)

/-- Substring by character positions. -/
def sliceStr (s : String) (a b : Nat) : String := String.mk ((s.data.drop a).take (b - a))

/-! ### Pattern parsing (`regex` crate syntax, embedded fragment) -/

/-- Apply a postfix quantifier chain (`*`, `+`, `?`, each optionally
followed by the lazy marker `?`) to an atom. -/
def quantLoop : RE → List Char → RE × List Char
  | a, '*' :: '?' :: rest => quantLoop (.star true a) rest
  | a, '*' :: rest => quantLoop (.star false a) rest
  | a, '+' :: '?' :: rest => quantLoop (.seq a (.star true a)) rest
  | a, '+' :: rest => quantLoop (.seq a (.star false a)) rest
  | a, '?' :: '?' :: rest => quantLoop (.alt .eps a) rest
  | a, '?' :: rest => quantLoop (.alt a .eps) rest
  | a, rest => (a, rest)

/-- Escapes the embedded fragment supports: punctuation and the common
control characters become literals; `\B` is the non-word-boundary
assertion; anything else (classes such as `\d`, `\w`, `\s`, and `\b`)
falls outside the fragment. -/
def escAtom (c : Char) : Option RE :=
  if c == 'n' then some (.lit '\n')
  else if c == 't' then some (.lit '\t')
  else if c == 'r' then some (.lit '\r')
  else if c == 'B' then some .nwb
  else if c.isAlphanum then none
  else some (.lit c)

/-- Read a group name up to `>`. -/
def readGroupName : List Char → Option (String × List Char)
  | [] => none
  | '>' :: rest => some ("", rest)
  | c :: rest =>
      match readGroupName rest with
      | some (n, rest') => some (String.mk (c :: n.data), rest')
      | none => none

mutual

/-- Parse an alternation (lowest precedence). -/
def parseAltF : Nat → List Char → Option (RE × List Char)
  | 0, _ => none
  | f+1, cs => do
      let (a, rest) ← parseCatF f cs
      match rest with
      | '|' :: rest2 => do
          let (b, rest3) ← parseAltF f rest2
          pure (.alt a b, rest3)
      | _ => pure (a, rest)

/-- Parse a concatenation of quantified atoms. -/
def parseCatF : Nat → List Char → Option (RE × List Char)
  | 0, _ => none
  | f+1, cs =>
      match cs with
      | [] => some (.eps, [])
      | ')' :: _ => some (.eps, cs)
      | '|' :: _ => some (.eps, cs)
      | _ => do
          let (a, rest) ← parseRepF f cs
          match rest with
          | [] => pure (a, [])
          | ')' :: _ => pure (a, rest)
          | '|' :: _ => pure (a, rest)
          | _ => do
              let (b, rest2) ← parseCatF f rest
              pure (.seq a b, rest2)

/-- Parse one atom with its postfix quantifiers. -/
def parseRepF : Nat → List Char → Option (RE × List Char)
  | 0, _ => none
  | f+1, cs => do
      let (a, rest) ← parseAtomF f cs
      pure (quantLoop a rest)

/-- Parse one atom. -/
def parseAtomF : Nat → List Char → Option (RE × List Char)
  | 0, _ => none
  | f+1, cs =>
      match cs with
      | '(' :: '?' :: 'P' :: '<' :: rest => do
          let (n, rest2) ← readGroupName rest
          let (a, rest3) ← parseAltF f rest2
          match rest3 with
          | ')' :: rest4 => pure (.group (some n) a, rest4)
          | _ => none
      | '(' :: '?' :: ':' :: rest => do
          let (a, rest2) ← parseAltF f rest
          match rest2 with
          | ')' :: rest3 => pure (.group none a, rest3)
          | _ => none
      | '(' :: '?' :: _ => none
      | '(' :: rest => do
          let (a, rest2) ← parseAltF f rest
          match rest2 with
          | ')' :: rest3 => pure (.group none a, rest3)
          | _ => none
      | '.' :: rest => some (.dot, rest)
      | '^' :: rest => some (.bol, rest)
      | '$' :: rest => some (.eol, rest)
      | '\\' :: c :: rest => (escAtom c).map (fun a => (a, rest))
      | '\\' :: [] => none
      | [] => none
      | '[' :: _ => none
      | '*' :: _ => none
      | '+' :: _ => none
      | '?' :: _ => none
      | ')' :: _ => none
      | '|' :: _ => none
      | c :: rest => some (.lit c, rest)

end

/-- The character stream `RegexBuilder::build` parses: the pattern, with
whitespace stripped when `ignore_whitespace` is on. -/
def buildInput (fl : RFlags) (pattern : String) : List Char :=
  if fl.ignoreWs then pattern.data.filter (fun c => !c.isWhitespace) else pattern.data

/-- Embeds `RegexBuilder::build`: parse the pattern under the given flags.
`none` embeds a build error — or a pattern outside the embedded fragment. -/
def buildRegex (fl : RFlags) (pattern : String) : Option CompiledRegex :=
  match parseAltF ((buildInput fl pattern).length * 4 + 16) (buildInput fl pattern) with
  | some (re, []) => some ⟨re, fl⟩
  | _ => none

/-! ### Configuration (src/config.rs) -/

/-- Embeds `config::AutoproxyLatchScope`. -/
inductive AutoproxyLatchScope where
  | Global
  | Server
deriving DecidableEq, Repr

/-- Embeds `config::PresenceMode`. -/
inductive PresenceMode where
  | Online
  | Busy
  | Idle
  | Invisible
deriving DecidableEq, Repr

/-- Embeds `config::AutoproxyConfig`. -/
inductive AutoproxyConfig where
  | Member (name : String)
  | Latch (scope : AutoproxyLatchScope) (timeout_seconds : Nat) (presence_indicator : Bool)
deriving DecidableEq, Repr

/-- Embeds `config::Member`.  `message_pattern` holds the compiled regex
(deserialized through `parse_regex`); `user_id` is the resolved bot user id
(`#[serde(skip)]`, populated after connecting). -/
structure Member where
  name : String
  message_pattern : CompiledRegex
  discord_token : String
  user_id : Option UserId
  presence : Option PresenceMode
  status : Option String
deriving DecidableEq, Repr

/-- Embeds `config::System` (the fields `pluralkit` and `ui_color`, which no
embedded operation consults, are omitted). -/
structure SystemConfig where
  reference_user_id : String
  members : List Member
  forward_pings : Bool
  autoproxy : Option AutoproxyConfig
deriving DecidableEq, Repr

/-- Embeds `config::Config`: named systems. -/
structure Config where
  systems : List (String × SystemConfig)
deriving DecidableEq, Repr

/-- Embeds the string wrapping of `parse_regex` (src/config.rs 108-124):
insert a leading `^` unless the pattern starts with `^`, then append a
trailing `$` unless it (now) ends with `$`. -/
def wrapPattern (pattern : String) : String :=
  let p1 := if strStartsWith pattern "^" then pattern else "^" ++ pattern
  if strEndsWith p1 "$" then p1 else p1 ++ "$"

/-- Embeds `parse_regex` (src/config.rs 108-124): wrap the pattern and
compile it with `dot_matches_new_line(true)` and `case_insensitive(true)`. -/
def parse_regex (pattern : String) : Option CompiledRegex :=
  buildRegex { ci := true, dotall := true } (wrapPattern pattern)

/-- Embeds the validation loop of `Config::load` (src/config.rs 85-106):
`true` iff the load does not panic.  The source tests
`system.members.iter().all(|member| member.name == *name)` for a
`Member`-mode autoproxy. -/
def Config.loadValidationOk (config : Config) : Bool :=
  config.systems.all (fun config_system =>
    match config_system.2.autoproxy with
    | some (.Member name) =>
        config_system.2.members.all (fun member => member.name == name)
    | _ => true)

/-- Embeds `Member::matches_proxy_prefix` (src/system/message_parser.rs
205-215, also src/system/mod.rs 459-468): run the compiled pattern's
capture search on the message content and return the text of the group
named `content`, if the pattern matched and that group participated. -/
def Member.matchesProxyPat (m : Member) (message : FullMessage) : Option String :=
  match reCaptures m.message_pattern message.content with
  | none => none
  | some (_, _, caps) =>
      match capLookup caps "content" with
      | none => none
      | some (a, b) => some (sliceStr message.content a b)

/-! ### Message parser (src/system/message_parser.rs)

`MessageParser::parse` and its helpers are pure in the source; a panicking
path (`.unwrap()` on a missing secondary message, an unresolvable author, a
missing remainder, a too-short `!s`, or a failing regex build) is embedded
as a `none` result. -/

/-- Embeds `message_parser::Command`. -/
inductive Command where
  | Edit (member : MemberId) (message : MessageId) (content : String)
  | Reproxy (member : MemberId) (message : MessageId)
  | Nick (member : MemberId) (name : String)
  | ReloadSystemConfig
  | ExitSeance
  | UnknownCommand
  | InvalidCommand
deriving DecidableEq, Repr

/-- Embeds `message_parser::ParsedMessage` (the emote variants carry a unit
placeholder, as in the source). -/
inductive ParsedMessage where
  | Command (c : Command)
  | SetProxyAndDelete (member : MemberId)
  | ProxiedMessage (member_id : MemberId) (message_content : String) (latch : Bool)
  | UnproxiedMessage
  | LatchClear (member : MemberId)
  | EmoteAdd (member : MemberId) (message : MessageId)
  | EmoteRemove (member : MemberId) (message : MessageId)
deriving DecidableEq, Repr

/-- State of a Rust `SplitWhitespace` iterator paired with `remainder()`:
`some s` is the not-yet-split tail of the original string, `none` means the
iterator is exhausted and `remainder()` is `None`. -/
def SwState := Option (List Char)

/-- Embeds one `next()` call on `SplitWhitespace`: skip leading whitespace,
yield the next word, and consume the single separator character following
it (matching how `remainder()` behaves after `next()`). -/
def swNext (st : SwState) : Option (List Char) × SwState :=
  match st with
  | none => (none, none)
  | some s =>
      let t := s.dropWhile Char.isWhitespace
      if t.isEmpty then (none, none)
      else
        let w := t.takeWhile (fun c => !c.isWhitespace)
        match t.dropWhile (fun c => !c.isWhitespace) with
        | [] => (some w, none)
        | _ :: rest => (some w, some rest)

/-- Embeds `SplitWhitespace::remainder().unwrap()`: `none` is the panic. -/
def swRemainder (st : SwState) : Option (List Char) := st

/-- Embeds `MessageParser::get_member_id_from_user_id`
(src/system/message_parser.rs 197-202). -/
def get_member_id_from_user_id (user_id : UserId) (system_config : SystemConfig) : Option MemberId :=
  (((system_config.members.enum).filter (fun p => p.2.user_id.isSome)).find?
      (fun p =>
        match p.2.user_id with
        | some u => u == user_id
        | none => false)).map (·.1)

/-- Embeds twilight's `Id::<UserMarker>::parse` on a mention token:
accepts `<@123>` and `<@!123>`. -/
def parseMention (s : String) : Option UserId :=
  match s.data with
  | '<' :: '@' :: rest =>
      let body := match rest with
        | '!' :: r => r
        | r => r
      match body.getLast? with
      | some '>' =>
          let digits := body.dropLast
          if !digits.isEmpty && digits.all Char.isDigit then
            some (digits.foldl (fun n c => n * 10 + (c.toNat - 48)) 0)
          else none
      | _ => none
  | _ => none

/-- Embeds `MessageParser::match_member` (src/system/message_parser.rs
187-195). -/
def match_member (maybe_mention : Option String) (system_config : SystemConfig) : Option MemberId :=
  match maybe_mention with
  | some mention_text =>
      match parseMention mention_text with
      | some mention => get_member_id_from_user_id mention system_config
      | none => none
  | none => none

/-- Sed flags of the `!s` command: fold the flag characters over the
`RegexBuilder` options; `none` embeds the `InvalidCommand` arm for an
unknown flag.  Returns the builder flags and the `g` (global) switch. -/
def parseSedFlags (flags : List Char) : Option (RFlags × Bool) :=
  flags.foldlM
    (fun (acc : RFlags × Bool) c =>
      if c == 'i' then some ({ acc.1 with ci := true }, acc.2)
      else if c == 'm' then some ({ acc.1 with multiline := true }, acc.2)
      else if c == 'g' then some (acc.1, true)
      else if c == 'x' then some ({ acc.1 with ignoreWs := true }, acc.2)
      else if c == 'R' then some ({ acc.1 with crlf := true }, acc.2)
      else if c == 's' then some ({ acc.1 with dotall := true }, acc.2)
      else if c == 'U' then some ({ acc.1 with swapGreed := true }, acc.2)
      else none)
    ({}, false)

/-- Embeds Rust `str::split(char)`: split at every occurrence of the
separator (n separators give n+1 parts). -/
def splitOnChar (s : List Char) (sep : Char) : List (List Char) :=
  match s with
  | [] => [[]]
  | c :: rest =>
      let parts := splitOnChar rest sep
      if c == sep then [] :: parts
      else
        match parts with
        | p :: ps => (c :: p) :: ps
        | [] => [[c]]

/-- Global regex replacement: repeatedly find and splice the (literal)
replacement, advancing over empty matches as the `regex` crate does.
Capture interpolation (`$1` in the replacement) is not modelled; no claim
depends on a replacement text using it. -/
def reReplaceG (cr : CompiledRegex) (input : List Char) (repl : List Char) : Nat → Nat → List Char
  | 0, p => input.drop p
  | fuel+1, p =>
      match reFindFrom cr.flags input cr.re p (input.length + 1 - p) with
      | none => input.drop p
      | some (b, e, _) =>
          ((input.drop p).take (b - p)) ++ repl ++
            (if b < e then reReplaceG cr input repl fuel e
             else match input[e]? with
               | some c => c :: reReplaceG cr input repl fuel (e+1)
               | none => [])

/-- Embeds `Regex::replace` / `Regex::replace_all` with a literal
replacement string. -/
def reReplace (cr : CompiledRegex) (s : String) (repl : String) (global : Bool) : String :=
  if global then String.mk (reReplaceG cr s.data repl.data (s.data.length + 1) 0)
  else
    match reFindFrom cr.flags s.data cr.re 0 (s.data.length + 1) with
    | none => s
    | some (b, e, _) => String.mk (s.data.take b ++ repl.data ++ s.data.drop e)

/-- Embeds the `!s` fallthrough at the end of `MessageParser::parse_command`
(src/system/message_parser.rs 105-146): the sed-style substitution, else
`UnknownCommand`. -/
def sedCheck (message : FullMessage) (secondary_message : Option FullMessage) (system_config : SystemConfig) : Option Command :=
  match message.content.data[1]? with
  | none => none
  | some c1 =>
      if c1 == 's' then
        match message.content.data[2]? with
        | none => none
        | some separator =>
            let parts := splitOnChar message.content.data separator
            if parts.length ≠ 3 ∧ parts.length ≠ 4 then some .InvalidCommand
            else
              match parts[1]?, parts[2]? with
              | some pattern, some replacement =>
                  let flagsStr := (parts[3]?).getD []
                  match parseSedFlags flagsStr with
                  | none => some .InvalidCommand
                  | some (fl, global) =>
                      match buildRegex fl (String.mk pattern) with
                      | none => none
                      | some regex =>
                          match secondary_message with
                          | none => none
                          | some sec =>
                              let new_content := reReplace regex sec.content (String.mk replacement) global
                              match get_member_id_from_user_id sec.author_id system_config with
                              | none => none
                              | some editing_member => some (.Edit editing_member sec.id new_content)
              | _, _ => some .InvalidCommand
      else some .UnknownCommand

/-- Embeds `MessageParser::parse_command` (src/system/message_parser.rs
80-147). -/
def parse_command (message : FullMessage) (secondary_message : Option FullMessage) (system_config : SystemConfig) (_latch_state : Option (MemberId × Timestamp)) : Option Command :=
  match message.content.data with
  | '!' :: rest0 =>
      let (first_word, st1) := swNext (some rest0)
      match first_word with
      | none => some .UnknownCommand
      | some w =>
          if w = "edit".data then
            match secondary_message with
            | none => none
            | some sec =>
                match get_member_id_from_user_id sec.author_id system_config with
                | none => none
                | some editing_member =>
                    match swRemainder st1 with
                    | none => none
                    | some rem => some (.Edit editing_member sec.id (String.mk rem))
          else if w = "nick".data then
            let (second_word, st2) := swNext st1
            match match_member (second_word.map String.mk) system_config with
            | some member =>
                match swRemainder st2 with
                | none => none
                | some rem => some (.Nick member (String.mk rem))
            | none => sedCheck message secondary_message system_config
          else if w = "reproxy".data then
            let (second_word, _st2) := swNext st1
            match match_member (second_word.map String.mk) system_config with
            | some member =>
                match secondary_message with
                | none => none
                | some sec => some (.Reproxy member sec.id)
            | none => sedCheck message secondary_message system_config
          else sedCheck message secondary_message system_config
  | _ => none

/-- Embeds the static `CORRECTION_REGEX` (`Regex::new(r"^\*\B+$")`,
src/system/message_parser.rs 38-40). -/
def CORRECTION_REGEX : Option CompiledRegex := buildRegex {} "^\\*\\B+$"

/-- Embeds `CORRECTION_REGEX.is_match(..)`. -/
def correctionIsMatch (s : String) : Bool :=
  match CORRECTION_REGEX with
  | some cr => (reCaptures cr s).isSome
  | none => false

/-- Embeds `MessageParser::check_correction` (src/system/message_parser.rs
149-151), which currently always returns `None`. -/
def check_correction (_message : FullMessage) (_secondary_message : Option FullMessage) : Option ParsedMessage :=
  none

/-- Embeds `MessageParser::check_member_patterns` (src/system/message_parser.rs
153-173).  The outer `Option` is the panic (`secondary_message.unwrap()`
when the trimmed capture is `*`); the inner one is the source's return
value (`None` falls through to the autoproxy check). -/
def check_member_patterns (message : FullMessage) (secondary_message : Option FullMessage) (system_config : SystemConfig) : Option (Option ParsedMessage) :=
  match system_config.members.enum.findSome?
      (fun p => (p.2.matchesProxyPat message).map (fun c => (p.1, c))) with
  | some (member_id, matched_content) =>
      if strTrim matched_content = "*" then
        match secondary_message with
        | some sec => some (some (.Command (.Reproxy member_id sec.id)))
        | none => none
      else if strTrim matched_content ≠ "" then
        some (some (.ProxiedMessage member_id matched_content true))
      else
        some (some (.SetProxyAndDelete member_id))
  | none => some none

/-- Embeds `MessageParser::check_autoproxy` (src/system/message_parser.rs
175-185). -/
def check_autoproxy (message : FullMessage) (latch_state : Option (MemberId × Timestamp)) : Option ParsedMessage :=
  match latch_state with
  | some (member_id, _) => some (.ProxiedMessage member_id message.content true)
  | none => none

/-- Embeds `MessageParser::parse` (src/system/message_parser.rs 43-78). -/
def MessageParser.parse (message : FullMessage) (secondary_message : Option FullMessage) (system_config : SystemConfig) (latch_state : Option (MemberId × Timestamp)) : Option ParsedMessage :=
  if message.content = "\\\\" then
    some (.LatchClear
      (match latch_state with
       | some (member_id, _) => member_id
       | none => 0))
  else if strStartsWith message.content "\\" then
    some .UnproxiedMessage
  else if strStartsWith message.content "!" then
    (parse_command message secondary_message system_config latch_state).map .Command
  else
    let corr : Option ParsedMessage :=
      if correctionIsMatch message.content then check_correction message secondary_message
      else none
    match corr with
    | some p => some p
    | none =>
        match check_member_patterns message secondary_message system_config with
        | none => none
        | some (some p) => some p
        | some none =>
            match check_autoproxy message latch_state with
            | some p => some p
            | none => some .UnproxiedMessage

/-! ### LRU cache (the `lru` crate as the aggregator uses it)

Entries are kept most-recently-used first; keys are unique.  `get` promotes
a hit to the front; `put` inserts or updates at the front and, when
inserting over capacity, evicts the least recently used entry. -/

/-- An LRU cache state: entries most-recently-used first. -/
structure Lru (α β : Type) where
  entries : List (α × β)
deriving DecidableEq, Repr

/-- The empty cache. -/
def Lru.empty {α β : Type} : Lru α β := ⟨[]⟩

/-- Pure lookup (no recency change), for stating properties. -/
def Lru.lookup {α β : Type} [DecidableEq α] (l : Lru α β) (k : α) : Option β :=
  (l.entries.find? (fun e => e.1 = k)).map (·.2)

/-- Embeds `LruCache::get`: look up and promote to most recent. -/
def Lru.getPromote {α β : Type} [DecidableEq α] (l : Lru α β) (k : α) : Option β × Lru α β :=
  match l.entries.find? (fun e => e.1 = k) with
  | some e => (some e.2, ⟨(k, e.2) :: l.entries.filter (fun e' => !(e'.1 = k : Bool))⟩)
  | none => (none, l)

/-- Embeds `LruCache::put` with capacity `cap`: update-and-promote an
existing key, else insert in front, evicting the least recently used entry
when the cache is full.  Also returns the evicted keys. -/
def Lru.put {α β : Type} [DecidableEq α] (cap : Nat) (l : Lru α β) (k : α) (v : β) : Lru α β × List α :=
  if l.entries.any (fun e => e.1 = k) then
    (⟨(k, v) :: l.entries.filter (fun e' => !(e'.1 = k : Bool))⟩, [])
  else if cap ≤ l.entries.length then
    (⟨(k, v) :: l.entries.dropLast⟩, (l.entries.getLast?.map (·.1)).toList)
  else
    (⟨(k, v) :: l.entries⟩, [])

/-! ### Aggregator (src/system/aggregator.rs) -/

/-- Embeds `system::types::Message` (gateway-side message events). -/
inductive GatewayMessage where
  | Complete (message : FullMessage) (member : MemberId)
  | Partial (update : PartialMessage) (member : MemberId)
deriving DecidableEq, Repr

/-- Embeds `system::types::MessageEvent`. -/
abbrev MessageEvent := Timestamp × GatewayMessage

/-- The upstream events the aggregator emits (the `SystemEvent` variants it
uses). -/
inductive AggregatorOut where
  | NewMessage (ts : Timestamp) (message : FullMessage) (member : MemberId)
  | RefetchMessage (member : MemberId) (message : MessageId) (channel : ChannelId)
deriving DecidableEq, Repr

/-- The aggregator's dedup cache: message id to last seen full message and
observer member (`LruCache<MessageId, (TwiMessage, MemberId)>`). -/
abbrev DedupCache := Lru MessageId (FullMessage × MemberId)

/-- Effective timestamp in microseconds
(`edited_timestamp.unwrap_or(timestamp).as_micros()`). -/
def effMicros (m : FullMessage) : Int := (m.edited_timestamp.getD m.timestamp).asMicros

/-- Embeds one iteration of the aggregator loop (`MessageAggregator::start`,
src/system/aggregator.rs 49-112) on one incoming event.  Returns the new
cache, the events re-submitted to the aggregator's own input, the events
emitted upstream, and the keys the cache evicted. -/
def aggregatorStep (cap : Nat) (cache : DedupCache) (ev : MessageEvent) :
    DedupCache × List MessageEvent × List AggregatorOut × List MessageId :=
  match ev with
  | (timestamp, .Partial current_partial _member_id) =>
      let (hit, cache) := cache.getPromote current_partial.id
      match hit with
      | some (original_message, cached_member_id) =>
          let updated1 :=
            match current_partial.edited_timestamp with
            | some edited_time => { original_message with edited_timestamp := some edited_time }
            | none => original_message
          let updated2 :=
            match current_partial.content with
            | some content => { updated1 with content := content }
            | none => updated1
          (cache, [(timestamp, .Complete updated2 cached_member_id)], [], [])
      | none =>
          (cache, [], [.RefetchMessage _member_id current_partial.id current_partial.channel_id], [])
  | (timestamp, .Complete message member_id) =>
      let (hit, cache1) := cache.getPromote message.id
      match hit with
      | some (previous_message, _last_seen_by) =>
          let previous_timestamp := effMicros previous_message
          let current_timestamp := effMicros message
          if previous_timestamp ≥ current_timestamp then (cache1, [], [], [])
          else
            let (cache2, evicted) := cache1.put cap message.id (message, member_id)
            (cache2, [], [.NewMessage timestamp message member_id], evicted)
      | none =>
          let (cache2, evicted) := cache1.put cap message.id (message, member_id)
          (cache2, [], [.NewMessage timestamp message member_id], evicted)

/-- Fold `aggregatorStep` over a list of incoming events, collecting the
upstream emissions and the evicted keys.  (Events the aggregator re-submits
to itself re-enter the real loop's queue; a claim over every possible input
sequence covers those as further list elements.) -/
def aggregatorRun (cap : Nat) : DedupCache → List MessageEvent → DedupCache × List AggregatorOut × List MessageId
  | cache, [] => (cache, [], [])
  | cache, ev :: evs =>
      let (cache1, _toSelf, outs, evicted) := aggregatorStep cap cache ev
      let (cacheF, outsF, evictedF) := aggregatorRun cap cache1 evs
      (cacheF, outs ++ outsF, evicted ++ evictedF)

/-- The effective timestamps of the `NewMessage` emissions for one message
id, in emission order. -/
def emissionsFor (id : MessageId) (outs : List AggregatorOut) : List Int :=
  outs.filterMap (fun o =>
    match o with
    | .NewMessage _ message _ => if message.id = id then some (effMicros message) else none
    | .RefetchMessage _ _ _ => none)

/-! ### Manager (src/system/mod.rs)

The `Manager`'s REST calls are embedded through an oracle (`CallEnv`)
supplying the outcome of the `duplicate_message` call and of
`delete_message` on the source; every `.expect(..)` is an `Option` `none`.
The mutable state a message can touch is the latch and the last-sent
presence map. -/

/-- Embeds `MessageDuplicateError` (src/system/mod.rs 470-476).  The
`MessageCreate` variant carries the error's display text, which
`proxy_message` inspects. -/
inductive MessageDuplicateError where
  | MessageValidation
  | AttachmentRequest
  | MessageCreate (text : String)
  | ResponseDeserialization
deriving DecidableEq, Repr

/-- Outcome of `duplicate_message`. -/
inductive DupResult where
  | ok (new_message : FullMessage)
  | err (e : MessageDuplicateError)
deriving DecidableEq, Repr

/-- Oracle for the REST calls one message-handling pass performs. -/
structure CallEnv where
  dupResult : DupResult
  deleteSourceOk : Bool
deriving DecidableEq, Repr

/-- The outward service calls the manager performs. -/
inductive ManagerAction where
  | Duplicate (channel : ChannelId) (content : String)
  | DeleteMessage (channel : ChannelId) (message : MessageId)
  | SetStatus (member : MemberId) (status : Status)
deriving DecidableEq, Repr

/-- Embeds `Manager::proxy_message` (src/system/mod.rs 257-278) as the list
of service calls it performs: the duplicate attempt, then — exactly when
the duplicate succeeded, or failed as a `MessageCreate` error whose text
contains "Cannot send an empty message" — a delete of the source, whose
failure is a panic (`.expect("Could not delete message")`, embedded as
`none`).  Other duplicate failures are only logged. -/
def proxy_message (env : CallEnv) (message : FullMessage) (content : String) : Option (List ManagerAction) :=
  match env.dupResult with
  | .err (.MessageCreate text) =>
      if strContains text "Cannot send an empty message" then
        if env.deleteSourceOk then
          some [.Duplicate message.channel_id content, .DeleteMessage message.channel_id message.id]
        else none
      else some [.Duplicate message.channel_id content]
  | .err _ => some [.Duplicate message.channel_id content]
  | .ok _ =>
      if env.deleteSourceOk then
        some [.Duplicate message.channel_id content, .DeleteMessage message.channel_id message.id]
      else none

/-- The manager state a message-handling pass can mutate: the latch and the
last-sent presence per member (`latch_state` and `last_presence`). -/
structure ManagerState where
  latch_state : Option (MemberId × Timestamp)
  last_presence : List (MemberId × Status)
deriving DecidableEq, Repr

/-- The initial manager state (`Manager::new`). -/
def initialManagerState : ManagerState := ⟨none, []⟩

/-- HashMap lookup on the presence map. -/
def presenceLookup (m : List (MemberId × Status)) (k : MemberId) : Option Status :=
  (m.find? (fun e => e.1 = k)).map (·.2)

/-- HashMap insert on the presence map. -/
def presenceInsert (m : List (MemberId × Status)) (k : MemberId) (v : Status) : List (MemberId × Status) :=
  (k, v) :: m.filter (fun e => !(e.1 = k : Bool))

/-- Embeds `Manager::find_member_by_name` (src/system/mod.rs 51-60). -/
def find_member_by_name (config : SystemConfig) (name : String) : Option (MemberId × Member) :=
  config.members.enum.find? (fun p => p.2.name = name)

/-- Embeds `Manager::find_member_by_id` (src/system/mod.rs 62-69). -/
def find_member_by_id (config : SystemConfig) (id : MemberId) : Option Member :=
  (config.members.enum.find? (fun p => p.1 = id)).map (·.2)

/-- Embeds `Manager::update_autoproxy_state_after_message` (src/system/mod.rs
358-383): under a `Latch` autoproxy the latch becomes `(member, timestamp)`
and — when the system sender is wired up — a timeout carrying that
timestamp is scheduled; under no autoproxy or a `Member` autoproxy nothing
happens. -/
def update_autoproxy_state_after_message (config : SystemConfig) (senderSet : Bool) (st : ManagerState) (member : MemberId) (timestamp : Timestamp) : ManagerState × List Timestamp :=
  match config.autoproxy with
  | none => (st, [])
  | some (.Member _) => (st, [])
  | some (.Latch _ _ _) =>
      ({ st with latch_state := some (member, timestamp) },
       if senderSet then [timestamp] else [])

/-- Embeds the desired-status computation of `Manager::update_status_of_system`
(the per-member closure, src/system/mod.rs 391-427). -/
def desiredMemberStatus (config : SystemConfig) (latch_state : Option (MemberId × Timestamp)) (member_id : MemberId) (member : Member) : Status :=
  match config.autoproxy with
  | none => .Invisible
  | some (.Member name) =>
      if member.name = name then .Online else .Invisible
  | some (.Latch scope _timeout presence_indicator) =>
      match scope with
      | .Server => .Invisible
      | .Global =>
          if !presence_indicator then .Invisible
          else
            match latch_state with
            | some (latch_member, _last_timestamp) =>
                if member_id = latch_member then .Online else .Invisible
            | none => .Invisible

/-- Embeds `Manager::update_status_of_member` (src/system/mod.rs 435-455):
a no-op when the status equals the last sent one (`Offline` when none was
ever sent); otherwise send through the member's gateway and record it, or —
when the member has no gateway — look the member up
(`.expect("Cannot look up member")`, embedded as `none`) and only log. -/
def update_status_of_member (config : SystemConfig) (clients : List MemberId) (st : ManagerState) (member : MemberId) (status : Status) : Option (ManagerState × List ManagerAction) :=
  let last_status := (presenceLookup st.last_presence member).getD .Offline
  if status = last_status then some (st, [])
  else if member ∈ clients then
    some ({ st with last_presence := presenceInsert st.last_presence member status },
          [.SetStatus member status])
  else
    match find_member_by_id config member with
    | some _ => some (st, [])
    | none => none

/-- Embeds `Manager::update_status_of_system` (src/system/mod.rs 385-433):
compute every member's desired status, then apply them in order through
`update_status_of_member`. -/
def update_status_of_system (config : SystemConfig) (clients : List MemberId) (st : ManagerState) : Option (ManagerState × List ManagerAction) :=
  let member_states : List (MemberId × Status) :=
    config.members.enum.map (fun p => (p.1, desiredMemberStatus config st.latch_state p.1 p.2))
  member_states.foldlM
    (fun acc ms => do
      let (st', acts) ← update_status_of_member config clients acc.1 ms.1 ms.2
      pure (st', acc.2 ++ acts))
    (st, ([] : List ManagerAction))

/-- The client the `\\` escape branch of `handle_message` deletes through:
the currently latched member's client (`.expect("No client for member ..")`
when absent, embedded as `none`), else the first client
(`.expect("No clients!")`). -/
def escapeDeleteClient (clients : List MemberId) (latch_state : Option (MemberId × Timestamp)) : Option MemberId :=
  match latch_state with
  | some (current_member, _) =>
      if current_member ∈ clients then some current_member else none
  | none => clients.head?

/-- Result of one `handle_message` pass: the new state, the service calls
performed, and the timeout timestamps scheduled. -/
structure HandleResult where
  state : ManagerState
  actions : List ManagerAction
  timers : List Timestamp
deriving DecidableEq, Repr

/-- Embeds `Manager::handle_message` (src/system/mod.rs 168-255).
`clients` is the key set of the manager's client map (every member id,
after startup); `senderSet` tells whether the system sender is wired up.
`none` embeds a panic (`!panic`, a missing client, a failed delete in the
escape branch, a panic inside `proxy_message`, or an invalid autoproxy
member name). -/
def handle_message (config : SystemConfig) (clients : List MemberId) (senderSet : Bool) (env : CallEnv) (st : ManagerState) (message : FullMessage) (timestamp : Timestamp) : Option HandleResult :=
  if message.content = "!panic" then none
  else if strStartsWith message.content "\\" then
    if message.content = "\\\\" then
      match escapeDeleteClient clients st.latch_state with
      | none => none
      | some _ =>
          if env.deleteSourceOk then
            some ⟨{ st with latch_state := none },
                  [.DeleteMessage message.channel_id message.id], []⟩
          else none
    else if strStartsWith message.content "\\\\" then
      some ⟨{ st with latch_state := none }, [], []⟩
    else
      some ⟨st, [], []⟩
  else
    match config.members.enum.findSome?
        (fun p => (p.2.matchesProxyPat message).map (fun c => (p.1, c))) with
    | some (member_id, matched_content) =>
        match proxy_message env message matched_content with
        | none => none
        | some proxyActs =>
            let (st1, timers) := update_autoproxy_state_after_message config senderSet st member_id timestamp
            match update_status_of_system config clients st1 with
            | none => none
            | some (st2, statusActs) => some ⟨st2, proxyActs ++ statusActs, timers⟩
    | none =>
        match config.autoproxy with
        | some (.Member name) =>
            match find_member_by_name config name with
            | none => none
            | some (member_id, _member) =>
                match proxy_message env message message.content with
                | none => none
                | some proxyActs =>
                    let _ := member_id
                    some ⟨st, proxyActs, []⟩
        | some (.Latch _scope timeout_seconds _presence) =>
            match st.latch_state with
            | some (member, last_timestamp) =>
                let time_since_last := timestamp.asSecs - last_timestamp.asSecs
                if time_since_last ≤ (timeout_seconds : Int) then
                  match proxy_message env message message.content with
                  | none => none
                  | some proxyActs =>
                      let st1 := { st with latch_state := some (member, timestamp) }
                      let (st2, timers) := update_autoproxy_state_after_message config senderSet st1 member timestamp
                      match update_status_of_system config clients st2 with
                      | none => none
                      | some (st3, statusActs) => some ⟨st3, proxyActs ++ statusActs, timers⟩
                else some ⟨st, [], []⟩
            | none => some ⟨st, [], []⟩
        | none => some ⟨st, [], []⟩

/-- Embeds the `SystemEvent::AutoproxyTimeout` arm of the manager loop
(src/system/mod.rs 145-153): clear the latch and reconcile presence iff
the carried timestamp equals the current latch timestamp. -/
def autoproxy_timeout_step (config : SystemConfig) (clients : List MemberId) (st : ManagerState) (time_scheduled : Timestamp) : Option (ManagerState × List ManagerAction) :=
  match st.latch_state with
  | some (_member, current_last_message) =>
      if current_last_message = time_scheduled then
        update_status_of_system config clients { st with latch_state := none }
      else some (st, [])
  | none => some (st, [])

/-- The system events that drive the manager's mutable state. -/
inductive ManagerEvent where
  | NewMessage (env : CallEnv) (message : FullMessage) (ts : Timestamp)
  | Timeout (ts : Timestamp)

/-- One manager-loop step on the mutable state. -/
def managerStep (config : SystemConfig) (clients : List MemberId) (senderSet : Bool) (st : ManagerState) : ManagerEvent → Option ManagerState
  | .NewMessage env message ts => (handle_message config clients senderSet env st message ts).map (·.state)
  | .Timeout ts => (autoproxy_timeout_step config clients st ts).map (·.1)

/-- Run the manager loop over a list of events (`none` once any step
panics). -/
def managerRun (config : SystemConfig) (clients : List MemberId) (senderSet : Bool) : ManagerState → List ManagerEvent → Option ManagerState
  | st, [] => some st
  | st, ev :: evs =>
      match managerStep config clients senderSet st ev with
      | none => none
      | some st' => managerRun config clients senderSet st' evs

/-! ### Latch runs (for the supersession property)

A `proxy` event is a message pass that reached
`update_autoproxy_state_after_message`; a `timeout` event is the
`AutoproxyTimeout` arm.  A *clear* is observed exactly when a timeout finds
the latch holding its carried timestamp. -/

/-- Latch-relevant events. -/
inductive LatchEvent where
  | proxy (member : MemberId) (ts : Timestamp)
  | timeout (ts : Timestamp)
deriving DecidableEq, Repr

/-- One latch-relevant step; the second component observes the clear
performed by a matching timeout, as the member/timestamp pair it removed. -/
def latchEventStep (config : SystemConfig) (clients : List MemberId) (senderSet : Bool) (st : ManagerState) : LatchEvent → Option (ManagerState × Option (MemberId × Timestamp))
  | .proxy member ts =>
      some ((update_autoproxy_state_after_message config senderSet st member ts).1, none)
  | .timeout ts =>
      let cleared : Option (MemberId × Timestamp) :=
        match st.latch_state with
        | some (member, current) => if current = ts then some (member, current) else none
        | none => none
      (autoproxy_timeout_step config clients st ts).map (fun r => (r.1, cleared))

/-- Run the latch-relevant events, collecting the observed clears. -/
def latchRun (config : SystemConfig) (clients : List MemberId) (senderSet : Bool) : ManagerState → List LatchEvent → Option (ManagerState × List (MemberId × Timestamp))
  | st, [] => some (st, [])
  | st, ev :: evs =>
      match latchEventStep config clients senderSet st ev with
      | none => none
      | some (st', cleared) =>
          (latchRun config clients senderSet st' evs).map
            (fun r => (r.1, cleared.toList ++ r.2))

/-- The timestamps of the proxy events of a latch run. -/
def proxyTimestamps : List LatchEvent → List Timestamp
  | [] => []
  | .proxy _ ts :: evs => ts :: proxyTimestamps evs
  | .timeout _ :: evs => proxyTimestamps evs

/-! ## Claim C5 — configuration load-time validation -/

/-- A trivially compiled pattern for configuration fixtures. -/
def trivialPattern : CompiledRegex := ⟨.eps, {}⟩

/-- Fixture member named `alpha`. -/
def c5MemberAlpha : Member := ⟨"alpha", trivialPattern, "token-a", none, none, none⟩

/-- Fixture member named `beta`. -/
def c5MemberBeta : Member := ⟨"beta", trivialPattern, "token-b", none, none, none⟩

/-- A system whose autoproxy names the defined member `alpha` — and also
has a second member `beta`. -/
def c5System : SystemConfig := ⟨"100", [c5MemberAlpha, c5MemberBeta], false, some (.Member "alpha")⟩

/-- A system with no members whose autoproxy names the undefined `ghost`. -/
def c5GhostSystem : SystemConfig := ⟨"100", [], false, some (.Member "ghost")⟩

/-- C5: the claim says `Config::load` succeeds iff the `Member`-mode
autoproxy name refers to a defined member.  The code instead requires
*every* member to bear that name (`.iter().all(..)` where the panic
message "does not match a known member name" shows the intent was
`any`): it rejects a two-member system whose autoproxy names the defined
member `alpha`, and accepts a memberless system whose autoproxy names the
undefined `ghost`. -/
theorem C5_load_validation_bug :
    c5System.members.any (fun m => m.name == "alpha") = true ∧
    Config.loadValidationOk ⟨[("sys", c5System)]⟩ = false ∧
    c5GhostSystem.members.any (fun m => m.name == "ghost") = false ∧
    Config.loadValidationOk ⟨[("sys", c5GhostSystem)]⟩ = true := by
  refine ⟨by decide, by decide, by decide, by decide⟩

/-! ## Claim C1 — proxy protocol atomicity -/

/-- Fixture source message (channel 5, id 7). -/
def c1SourceMessage : FullMessage := ⟨7, 5, 100, "hi", ⟨1000000⟩, none⟩

/-- Fixture duplicated message (channel 5, id 8), the value the duplicate
call returns when it succeeds. -/
def c1Duplicated : FullMessage := ⟨8, 5, 200, "hi", ⟨2000000⟩, none⟩

/-- Oracle: the duplicate call fails with the empty-message create error,
and deleting the source would succeed. -/
def c1EmptyCreateEnv : CallEnv := ⟨.err (.MessageCreate "Cannot send an empty message in this channel"), true⟩

/-- Oracle: the duplicate call succeeds but deleting the source fails. -/
def c1DeleteFailEnv : CallEnv := ⟨.ok c1Duplicated, false⟩

/-- C1 (counterexample): the claim says that when `duplicate_message` fails
the source is not deleted, and that when the subsequent source delete fails
the duplicate is deleted as a rollback and an error is returned.  On the
code: a duplicate failure whose create error reads "Cannot send an empty
message" *does* delete the source (channel 5, id 7); and a failed source
delete after a successful duplicate panics
(`.expect("Could not delete message")`, embedded as `none`) — no delete of
the duplicate (id 8) is issued and no error is returned. -/
theorem C1_counterexample :
    proxy_message c1EmptyCreateEnv c1SourceMessage "hi" =
      some [.Duplicate 5 "hi", .DeleteMessage 5 7] ∧
    proxy_message c1DeleteFailEnv c1SourceMessage "hi" = none := by
  refine ⟨by decide, by decide⟩

/-- The condition under which `Manager::proxy_message` deletes the source:
the duplicate succeeded, or it failed as a `MessageCreate` error whose text
contains "Cannot send an empty message". -/
def deletesSourceCond (env : CallEnv) : Bool :=
  match env.dupResult with
  | .ok _ => true
  | .err (.MessageCreate text) => strContains text "Cannot send an empty message"
  | .err _ => false

/-- C1 (amended): for every proxy invocation, the source message is deleted
iff the source delete succeeds and the duplicate call either succeeded or
failed with the empty-message create error; no message other than the
source is ever deleted (in particular there is no rollback delete of the
duplicate); and the pass panics (returns no error) exactly when that source
delete was attempted and failed. -/
theorem C1_proxy_protocol :
    ∀ (env : CallEnv) (message : FullMessage) (content : String),
    (∀ acts, proxy_message env message content = some acts →
      ((ManagerAction.DeleteMessage message.channel_id message.id ∈ acts) ↔
        deletesSourceCond env = true)) ∧
    (∀ acts, proxy_message env message content = some acts →
      ∀ ch mid, ManagerAction.DeleteMessage ch mid ∈ acts →
        ch = message.channel_id ∧ mid = message.id) ∧
    (proxy_message env message content = none ↔
      (deletesSourceCond env = true ∧ env.deleteSourceOk = false)) := by
  intro env message content
  obtain ⟨dup, del⟩ := env
  cases dup with
  | ok m =>
      cases del
      all_goals simp [proxy_message, deletesSourceCond]
  | err e =>
      cases e <;> cases del
      all_goals simp [proxy_message, deletesSourceCond]
      all_goals split
      all_goals simp_all

/-- C1 (witness): the amended proxy-protocol theorem applied at the
concrete empty-message oracle and its concrete action list. -/
theorem C1_proxy_protocol_witness :
    ManagerAction.DeleteMessage c1SourceMessage.channel_id c1SourceMessage.id ∈
        [ManagerAction.Duplicate 5 "hi", ManagerAction.DeleteMessage 5 7] ↔
      deletesSourceCond c1EmptyCreateEnv = true :=
  (C1_proxy_protocol c1EmptyCreateEnv c1SourceMessage "hi").1
    [ManagerAction.Duplicate 5 "hi", ManagerAction.DeleteMessage 5 7] (by decide)

/-! ## Claim C7 — prefix-match classification -/

/-- Compiled fixture pattern `A:(?P<content>.*)` (wrapped and flagged by
`parse_regex` as for any member pattern). -/
def c7Pattern : CompiledRegex :=
  match parse_regex "A:(?P<content>.*)" with
  | some cr => cr
  | none => ⟨.eps, {}⟩

/-- Fixture member using `c7Pattern`. -/
def c7Member : Member := ⟨"aye", c7Pattern, "token", some 42, none, none⟩

/-- Fixture system with the one member `c7Member`. -/
def c7Config : SystemConfig := ⟨"100", [c7Member], false, none⟩

/-- Fixture message whose content matches the member pattern with the
capture ` hi ` (whitespace on both sides). -/
def c7Message : FullMessage := ⟨11, 5, 100, "A: hi ", ⟨1000000⟩, none⟩

/-- Fixture secondary message. -/
def c7Secondary : FullMessage := ⟨12, 5, 43, "previous", ⟨900000⟩, none⟩

/-- C7 (counterexample): the claim says the `ProxiedMessage` carries the
*trimmed* capture.  On content `"A: hi "` the capture is `" hi "`, whose
trim `"hi"` is non-empty, and the code returns the *untrimmed* `" hi "` as
the message content. -/
theorem C7_counterexample :
    parse_regex "A:(?P<content>.*)" = some c7Pattern ∧
    c7Member.matchesProxyPat c7Message = some " hi " ∧
    strTrim " hi " = "hi" ∧
    check_member_patterns c7Message (some c7Secondary) c7Config =
      some (some (.ProxiedMessage 0 " hi " true)) ∧
    (" hi " : String) ≠ "hi" := by
  refine ⟨by decide, by decide, by decide, by decide, by decide⟩

/-- C7 (amended): when the member-pattern scan finds `(member_id, matched)`
(the raw text of the `content` capture), the classification is by the
*trimmed* capture but the returned content is the *untrimmed* one:
`Reproxy(member_id, secondary.id)` when the trim is `*` (panicking when no
secondary message exists), `ProxiedMessage(member_id, matched, latch=true)`
with the untrimmed `matched` when the trim is non-empty, and
`SetProxyAndDelete(member_id)` when the trim is empty. -/
theorem C7_member_pattern_classification
    (message : FullMessage) (secondary : Option FullMessage) (config : SystemConfig)
    (member_id : MemberId) (matched : String)
    (h : config.members.enum.findSome?
        (fun p => (p.2.matchesProxyPat message).map (fun c => (p.1, c))) =
      some (member_id, matched)) :
    (∀ sec, strTrim matched = "*" → secondary = some sec →
      check_member_patterns message secondary config =
        some (some (.Command (.Reproxy member_id sec.id)))) ∧
    (strTrim matched = "*" → secondary = none →
      check_member_patterns message secondary config = none) ∧
    (strTrim matched ≠ "*" → strTrim matched ≠ "" →
      check_member_patterns message secondary config =
        some (some (.ProxiedMessage member_id matched true))) ∧
    (strTrim matched ≠ "*" → strTrim matched = "" →
      check_member_patterns message secondary config =
        some (some (.SetProxyAndDelete member_id))) := by
  refine ⟨?_, ?_, ?_, ?_⟩
  · intro sec h1 h2
    simp [check_member_patterns, h, h1, h2]
  · intro h1 h2
    simp [check_member_patterns, h, h1, h2]
  · intro h1 h2
    simp [check_member_patterns, h, h1, h2]
  · intro h1 h2
    simp [check_member_patterns, h, h1, h2]

/-- C7 (witness): the amended classification theorem applied at the
concrete fixture with capture `" hi "`. -/
theorem C7_member_pattern_witness :
    check_member_patterns c7Message (some c7Secondary) c7Config =
      some (some (.ProxiedMessage 0 " hi " true)) :=
  (C7_member_pattern_classification c7Message (some c7Secondary) c7Config 0 " hi "
    (by decide)).2.2.1 (by decide) (by decide)

/-! ## Claim C6 — parser totality -/

/-- Fixture system for the parser-totality claim (no members). -/
def c6Config : SystemConfig := ⟨"100", [], false, none⟩

/-- The command message `!edit` with no secondary message available. -/
def c6EditMessage : FullMessage := ⟨21, 5, 100, "!edit", ⟨1000000⟩, none⟩

/-- The command message `!s` (too short for a separator). -/
def c6SMessage : FullMessage := ⟨22, 5, 100, "!s", ⟨1000000⟩, none⟩

/-- A plain message and a secondary, for the witness. -/
def c6PlainMessage : FullMessage := ⟨23, 5, 100, "hello", ⟨1000000⟩, none⟩

/-- Fixture secondary message for C6. -/
def c6Secondary : FullMessage := ⟨24, 5, 43, "previous", ⟨900000⟩, none⟩

/-- C6 (counterexample): the claim says `MessageParser::parse` never
panics, *including* on `!edit` or `!s` without a secondary message.  Both
panic: `!edit` hits `secondary_message.as_ref().unwrap()` and `!s` hits
`content.chars().nth(2).unwrap()` (panics embedded as `none`). -/
theorem C6_counterexample :
    MessageParser.parse c6EditMessage none c6Config none = none ∧
    MessageParser.parse c6SMessage none c6Config none = none := by
  refine ⟨by decide, by decide⟩

/-- Helper: with a secondary message present, the member-pattern check
cannot panic. -/
theorem check_member_patterns_total (message : FullMessage) (sec : FullMessage) (config : SystemConfig) :
    (check_member_patterns message (some sec) config).isSome := by
  unfold check_member_patterns
  cases h : config.members.enum.findSome?
      (fun p => (p.2.matchesProxyPat message).map (fun c => (p.1, c))) with
  | none => simp
  | some v =>
      obtain ⟨member_id, matched⟩ := v
      by_cases h1 : strTrim matched = "*"
      · simp [h1]
      · by_cases h2 : strTrim matched = ""
        all_goals simp [h1, h2]

/-- C6 (amended): `MessageParser::parse` classifies every input into
exactly one variant provided the content does not start with `!` and a
secondary message is present; command inputs (and a `*`-capture reproxy
without a secondary) can panic, as the counterexample shows. -/
theorem C6_parser_totality
    (message : FullMessage) (secondary : Option FullMessage) (config : SystemConfig)
    (latch : Option (MemberId × Timestamp))
    (hbang : strStartsWith message.content "!" = false)
    (hsec : secondary.isSome) :
    (MessageParser.parse message secondary config latch).isSome := by
  obtain ⟨sec, rfl⟩ := Option.isSome_iff_exists.mp hsec
  unfold MessageParser.parse
  by_cases h1 : message.content = "\\\\"
  · simp [h1]
  · by_cases h2 : strStartsWith message.content "\\" = true
    · simp [h1, h2]
    · simp only [h1, if_false, h2, hbang, Bool.false_eq_true, check_correction]
      have h3 := check_member_patterns_total message sec config
      cases h4 : check_member_patterns message (some sec) config with
      | none => rw [h4] at h3; simp at h3
      | some v =>
          cases v with
          | none =>
              cases h5 : check_autoproxy message latch with
              | none => simp [h5]
              | some p => simp [h5]
          | some p => simp

/-- C6 (witness): the totality theorem applied at the concrete plain
message with a secondary present. -/
theorem C6_parser_totality_witness :
    (MessageParser.parse c6PlainMessage (some c6Secondary) c6Config none).isSome :=
  C6_parser_totality c6PlainMessage (some c6Secondary) c6Config none (by decide) (by decide)

/-! ## Claim C10 — soft latch clear on escape -/

/-- Helper: a string starting with two backslashes decomposes as such. -/
theorem startsWith_bb_shape (s : String) (h : strStartsWith s "\\\\" = true) :
    ∃ t, s.data = '\\' :: '\\' :: t := by
  unfold strStartsWith at h
  have hpre : ("\\\\" : String).data <+: s.data := List.isPrefixOf_iff_prefix.mp h
  obtain ⟨t, ht⟩ := hpre
  refine ⟨t, ?_⟩
  have hd : ("\\\\" : String).data = ['\\', '\\'] := rfl
  rw [hd] at ht
  exact ht.symm

/-- Helper: a string starting with two backslashes also starts with one. -/
theorem startsWith_bb_single (s : String) (h : strStartsWith s "\\\\" = true) :
    strStartsWith s "\\" = true := by
  obtain ⟨t, ht⟩ := startsWith_bb_shape s h
  unfold strStartsWith
  rw [ht]
  simp [List.isPrefixOf]

/-- Helper: a string starting with two backslashes is not `!panic`. -/
theorem startsWith_bb_ne_panic (s : String) (h : strStartsWith s "\\\\" = true) :
    s ≠ "!panic" := by
  obtain ⟨t, ht⟩ := startsWith_bb_shape s h
  intro heq
  rw [heq] at ht
  simp at ht

/-- C10: a message whose content starts with two backslashes but is not
exactly `\\` only clears the latch: the handler deletes nothing, proxies
nothing, schedules nothing, and leaves every other state component
unchanged; only the exact two-character `\\` additionally deletes the
triggering message (through the escape-branch client, when the delete
succeeds). -/
theorem C10_soft_latch_clear
    (config : SystemConfig) (clients : List MemberId) (senderSet : Bool) (env : CallEnv)
    (st : ManagerState) (message : FullMessage) (timestamp : Timestamp) :
    (strStartsWith message.content "\\\\" = true → message.content ≠ "\\\\" →
      handle_message config clients senderSet env st message timestamp =
        some ⟨{ st with latch_state := none }, [], []⟩) ∧
    (message.content = "\\\\" → (escapeDeleteClient clients st.latch_state).isSome →
      env.deleteSourceOk = true →
      handle_message config clients senderSet env st message timestamp =
        some ⟨{ st with latch_state := none },
              [.DeleteMessage message.channel_id message.id], []⟩) := by
  constructor
  · intro h hne
    have h1 := startsWith_bb_single message.content h
    have h2 := startsWith_bb_ne_panic message.content h
    unfold handle_message
    rw [if_neg h2, if_pos h1, if_neg hne, if_pos h]
  · intro h hcl hdel
    have h2 : message.content ≠ "!panic" := by rw [h]; decide
    have h1 : strStartsWith message.content "\\" = true := by
      rw [h]; decide
    unfold handle_message
    rw [if_neg h2, if_pos h1, if_pos h]
    obtain ⟨m, hm⟩ := Option.isSome_iff_exists.mp hcl
    rw [hm, hdel]
    simp

/-- C10 (witness): the soft-clear theorem applied at a concrete message
`\\x` from a latched state. -/
theorem C10_soft_latch_clear_witness :
    handle_message ⟨"100", [], false, none⟩ [0] true ⟨.err .MessageValidation, true⟩
        ⟨some (0, ⟨1000000⟩), []⟩ ⟨41, 5, 100, "\\\\x", ⟨2000000⟩, none⟩ ⟨2000000⟩ =
      some ⟨⟨none, []⟩, [], []⟩ :=
  (C10_soft_latch_clear ⟨"100", [], false, none⟩ [0] true ⟨.err .MessageValidation, true⟩
      ⟨some (0, ⟨1000000⟩), []⟩ ⟨41, 5, 100, "\\\\x", ⟨2000000⟩, none⟩ ⟨2000000⟩).1
    (by decide) (by decide)

/-! ## Claim C8 — presence reconciliation -/

/-- The desired status as the claim words it: `Invisible` with no autoproxy
policy; under `Member{name}`, `Online` for the named member and `Invisible`
for the rest; under `Latch`, `Invisible` for everyone when the scope is
`Server` or the presence indicator is off, else `Online` exactly for the
latched member (everyone `Invisible` when the latch is off). -/
def claimDesiredStatus (config : SystemConfig) (latch_state : Option (MemberId × Timestamp)) (member_id : MemberId) (member : Member) : Status :=
  match config.autoproxy with
  | none => .Invisible
  | some (.Member name) => if member.name = name then .Online else .Invisible
  | some (.Latch scope _timeout presence_indicator) =>
      if scope = .Server ∨ presence_indicator = false then .Invisible
      else
        match latch_state with
        | some (latch_member, _) => if member_id = latch_member then .Online else .Invisible
        | none => .Invisible

/-- Helper: one `update_status_of_member` call sends nothing or exactly the
given status to the given member. -/
theorem update_status_of_member_acts
    (config : SystemConfig) (clients : List MemberId) (st : ManagerState)
    (member : MemberId) (status : Status) (r : ManagerState × List ManagerAction)
    (h : update_status_of_member config clients st member status = some r) :
    r.2 = [] ∨ r.2 = [.SetStatus member status] := by
  unfold update_status_of_member at h
  by_cases h1 : status = (presenceLookup st.last_presence member).getD .Offline
  · rw [if_pos h1] at h
    cases h
    exact Or.inl rfl
  · rw [if_neg h1] at h
    by_cases h2 : member ∈ clients
    · rw [if_pos h2] at h
      cases h
      exact Or.inr rfl
    · rw [if_neg h2] at h
      cases h3 : find_member_by_id config member with
      | none => rw [h3] at h; cases h
      | some _ =>
          rw [h3] at h
          cases h
          exact Or.inl rfl

/-- Helper: every action the status fold emits beyond the accumulator is a
`SetStatus` for one of the folded member/status pairs. -/
theorem status_fold_sends_subset
    (config : SystemConfig) (clients : List MemberId) :
    ∀ (ms : List (MemberId × Status)) (acc : ManagerState × List ManagerAction)
      (r : ManagerState × List ManagerAction),
      ms.foldlM
        (fun acc ms => do
          let (st', acts) ← update_status_of_member config clients acc.1 ms.1 ms.2
          pure (st', acc.2 ++ acts)) acc = some r →
      ∀ a ∈ r.2, a ∈ acc.2 ∨ ∃ p ∈ ms, a = ManagerAction.SetStatus p.1 p.2 := by
  intro ms
  induction ms with
  | nil =>
      intro acc r h a ha
      cases h
      exact Or.inl ha
  | cons hd tl ih =>
      intro acc r h a ha
      rw [List.foldlM_cons] at h
      cases hstep : update_status_of_member config clients acc.1 hd.1 hd.2 with
      | none => rw [hstep] at h; cases h
      | some step =>
          rw [hstep] at h
          simp only [Option.bind_eq_bind, Option.some_bind] at h
          rcases ih (step.1, acc.2 ++ step.2) r h a ha with hin | ⟨p, hp, rfl⟩
          · rcases List.mem_append.mp hin with hin1 | hin2
            · exact Or.inl hin1
            · rcases update_status_of_member_acts config clients acc.1 hd.1 hd.2 step hstep with
                h0 | h0
              · rw [h0] at hin2; cases hin2
              · rw [h0] at hin2
                rcases List.mem_singleton.mp hin2 with rfl
                exact Or.inr ⟨hd, List.mem_cons_self hd tl, rfl⟩
          · exact Or.inr ⟨p, List.mem_cons_of_mem hd hp, rfl⟩

/-- C8: the desired status `update_status_of_system` computes for every
member agrees with the claim's case table (`claimDesiredStatus`); one
status update is a no-op exactly when the desired status equals the
last-sent one (`Offline` before any send); and every status update the
reconciliation pass sends carries some member's desired status. -/
theorem C8_presence_reconciliation :
    (∀ (config : SystemConfig) (latch : Option (MemberId × Timestamp)) (member_id : MemberId) (member : Member),
      desiredMemberStatus config latch member_id member =
        claimDesiredStatus config latch member_id member) ∧
    (∀ (config : SystemConfig) (clients : List MemberId) (st : ManagerState)
       (member : MemberId) (status : Status) (r : ManagerState × List ManagerAction),
      update_status_of_member config clients st member status = some r →
      ((status = (presenceLookup st.last_presence member).getD .Offline → r = (st, [])) ∧
       (r.2 ≠ [] → status ≠ (presenceLookup st.last_presence member).getD .Offline))) ∧
    (∀ (config : SystemConfig) (clients : List MemberId) (st : ManagerState)
       (r : ManagerState × List ManagerAction),
      update_status_of_system config clients st = some r →
      ∀ a ∈ r.2, ∃ p ∈ config.members.enum,
        a = ManagerAction.SetStatus p.1 (desiredMemberStatus config st.latch_state p.1 p.2)) := by
  refine ⟨?_, ?_, ?_⟩
  · intro config latch member_id member
    unfold desiredMemberStatus claimDesiredStatus
    cases config.autoproxy with
    | none => rfl
    | some ap =>
        cases ap with
        | Member name => rfl
        | Latch scope timeout presence_indicator =>
            cases scope with
            | Server => simp
            | Global =>
                cases presence_indicator with
                | false => simp
                | true => simp
  · intro config clients st member status r h
    by_cases h1 : status = (presenceLookup st.last_presence member).getD .Offline
    · constructor
      · intro _
        unfold update_status_of_member at h
        rw [if_pos h1] at h
        cases h
        rfl
      · intro hne
        unfold update_status_of_member at h
        rw [if_pos h1] at h
        cases h
        exact absurd rfl hne
    · exact ⟨fun he => absurd he h1, fun _ => h1⟩
  · intro config clients st r h a ha
    unfold update_status_of_system at h
    have hsub := status_fold_sends_subset config clients
      (config.members.enum.map (fun p => (p.1, desiredMemberStatus config st.latch_state p.1 p.2)))
      (st, []) r h a ha
    rcases hsub with hin | ⟨p, hp, rfl⟩
    · cases hin
    · obtain ⟨q, hq, hpq⟩ := List.mem_map.mp hp
      refine ⟨q, hq, ?_⟩
      rw [← hpq]

/-- C8 (witness): the reconciliation theorem applied at a concrete
two-member latch system: the third conjunct at its concrete run. -/
theorem C8_presence_reconciliation_witness :
    ∀ a ∈ ([.SetStatus 0 Status.Online, .SetStatus 1 Status.Invisible] : List ManagerAction),
      ∃ p ∈ ((⟨"100", [⟨"a", trivialPattern, "t", none, none, none⟩,
                       ⟨"b", trivialPattern, "t", none, none, none⟩], false,
               some (.Latch .Global 30 true)⟩ : SystemConfig)).members.enum,
        a = ManagerAction.SetStatus p.1
          (desiredMemberStatus ⟨"100", [⟨"a", trivialPattern, "t", none, none, none⟩,
                                        ⟨"b", trivialPattern, "t", none, none, none⟩], false,
               some (.Latch .Global 30 true)⟩
            (⟨some (0, ⟨1000000⟩), []⟩ : ManagerState).latch_state p.1 p.2) :=
  (C8_presence_reconciliation).2.2
    ⟨"100", [⟨"a", trivialPattern, "t", none, none, none⟩,
             ⟨"b", trivialPattern, "t", none, none, none⟩], false,
     some (.Latch .Global 30 true)⟩
    [0, 1] ⟨some (0, ⟨1000000⟩), []⟩
    (⟨some (0, ⟨1000000⟩), [(1, Status.Invisible), (0, Status.Online)]⟩,
      [.SetStatus 0 Status.Online, .SetStatus 1 Status.Invisible])
    (by decide)

/-! ## Claim C4 — regex anchoring -/

/-- A regex every match of which must begin at a `^` assertion. -/
def startsAnchored : RE → Bool
  | .bol => true
  | .seq a _ => startsAnchored a
  | .group _ a => startsAnchored a
  | _ => false

/-- A regex every match of which must end at a `$` assertion. -/
def endsAnchored : RE → Bool
  | .eol => true
  | .seq _ b => endsAnchored b
  | .group _ a => endsAnchored a
  | _ => false

/-- Helper: with multiline off, a match of a starts-anchored regex can only
begin at position 0. -/
theorem matchAtF_startsAnchored (fl : RFlags) (input : List Char) (hm : fl.multiline = false) :
    ∀ (re : RE), startsAnchored re = true →
      ∀ (fuel i : Nat) (caps : Caps) (r : Nat × Caps),
        r ∈ matchAtF fl input fuel re i caps → i = 0 := by
  intro re
  induction re with
  | bol =>
      intro _ fuel i caps r hr
      cases fuel with
      | zero => simp [matchAtF] at hr
      | succ f =>
          simp only [matchAtF] at hr
          by_cases hb : bolOk fl input i
          · simp only [bolOk, hm, Bool.false_and, Bool.or_false, beq_iff_eq] at hb
            exact hb
          · rw [if_neg hb] at hr
            cases hr
  | seq a b iha _ihb =>
      intro hs fuel i caps r hr
      cases fuel with
      | zero => simp [matchAtF] at hr
      | succ f =>
          simp only [matchAtF] at hr
          obtain ⟨x, hx, _⟩ := List.mem_flatMap.mp hr
          exact iha (by simpa [startsAnchored] using hs) f i caps x hx
  | group name a iha =>
      intro hs fuel i caps r hr
      cases fuel with
      | zero => simp [matchAtF] at hr
      | succ f =>
          simp only [matchAtF] at hr
          obtain ⟨x, hx, _⟩ := List.mem_map.mp hr
          exact iha (by simpa [startsAnchored] using hs) f i caps x hx
  | eps => intro hs; simp [startsAnchored] at hs
  | lit c => intro hs; simp [startsAnchored] at hs
  | dot => intro hs; simp [startsAnchored] at hs
  | eol => intro hs; simp [startsAnchored] at hs
  | nwb => intro hs; simp [startsAnchored] at hs
  | alt a b _ _ => intro hs; simp [startsAnchored] at hs
  | star lz a _ => intro hs; simp [startsAnchored] at hs

/-- Helper: with multiline off, a match of an ends-anchored regex can only
end at the end of the input. -/
theorem matchAtF_endsAnchored (fl : RFlags) (input : List Char) (hm : fl.multiline = false) :
    ∀ (re : RE), endsAnchored re = true →
      ∀ (fuel i : Nat) (caps : Caps) (r : Nat × Caps),
        r ∈ matchAtF fl input fuel re i caps → r.1 = input.length := by
  intro re
  induction re with
  | eol =>
      intro _ fuel i caps r hr
      cases fuel with
      | zero => simp [matchAtF] at hr
      | succ f =>
          simp only [matchAtF] at hr
          by_cases hb : eolOk fl input i
          · rw [if_pos hb] at hr
            rcases List.mem_singleton.mp hr with rfl
            simp only [eolOk, hm, Bool.false_and, Bool.or_false, beq_iff_eq] at hb
            show i = input.length
            exact hb
          · rw [if_neg hb] at hr
            cases hr
  | seq a b _iha ihb =>
      intro hs fuel i caps r hr
      cases fuel with
      | zero => simp [matchAtF] at hr
      | succ f =>
          simp only [matchAtF] at hr
          obtain ⟨x, _, hx⟩ := List.mem_flatMap.mp hr
          exact ihb (by simpa [endsAnchored] using hs) f x.1 x.2 r hx
  | group name a iha =>
      intro hs fuel i caps r hr
      cases fuel with
      | zero => simp [matchAtF] at hr
      | succ f =>
          simp only [matchAtF] at hr
          obtain ⟨x, hx, hxr⟩ := List.mem_map.mp hr
          have := iha (by simpa [endsAnchored] using hs) f i caps x hx
          rw [← hxr]
          exact this
  | eps => intro hs; simp [endsAnchored] at hs
  | lit c => intro hs; simp [endsAnchored] at hs
  | dot => intro hs; simp [endsAnchored] at hs
  | bol => intro hs; simp [endsAnchored] at hs
  | nwb => intro hs; simp [endsAnchored] at hs
  | alt a b _ _ => intro hs; simp [endsAnchored] at hs
  | star lz a _ => intro hs; simp [endsAnchored] at hs

/-- Helper: a successful find returns a member of the match list at the
found start position. -/
theorem reFindFrom_mem (fl : RFlags) (input : List Char) (re : RE) :
    ∀ (k p b e : Nat) (caps : Caps),
      reFindFrom fl input re p k = some (b, e, caps) →
      (e, caps) ∈ matchAtF fl input (matchFuel input re) re b [] := by
  intro k
  induction k with
  | zero => intro p b e caps h; cases h
  | succ k ih =>
      intro p b e caps h
      simp only [reFindFrom] at h
      cases hm : matchAtF fl input (matchFuel input re) re p [] with
      | nil =>
          rw [hm] at h
          exact ih (p+1) b e caps h
      | cons r rest =>
          rw [hm] at h
          simp only [Option.some.injEq, Prod.mk.injEq] at h
          obtain ⟨rfl, rfl, rfl⟩ := h
          rw [hm]
          exact List.mem_cons_self _ _

/-- Helper: the ends-check of `wrapPattern` is unaffected by the prepended
caret. -/
theorem strEndsWith_caret (p : String) : strEndsWith ("^" ++ p) "$" = strEndsWith p "$" := by
  unfold strEndsWith
  have hd : ("^" ++ p).data = '^' :: p.data := by
    have := String.data_append "^" p
    simp [this]
  rw [hd]
  show List.isPrefixOf ['$'] ('^' :: p.data).reverse = List.isPrefixOf ['$'] p.data.reverse
  rw [List.reverse_cons]
  cases q : p.data.reverse with
  | nil => decide
  | cons c t => simp [List.isPrefixOf]

/-- Helper: a successful `RegexBuilder::build` carries exactly the builder
flags. -/
theorem buildRegex_flags (fl : RFlags) (p : String) (cr : CompiledRegex)
    (h : buildRegex fl p = some cr) : cr.flags = fl := by
  unfold buildRegex at h
  cases hp : parseAltF ((buildInput fl p).length * 4 + 16) (buildInput fl p) with
  | none => rw [hp] at h; cases h
  | some v =>
      obtain ⟨re, rest⟩ := v
      cases rest with
      | nil =>
          rw [hp] at h
          injection h with h1
          rw [← h1]
      | cons c t => rw [hp] at h; cases h

/-- C4 (amended): `parse_regex` wraps the pattern string (a `^` prepended
unless one is already first, a `$` appended unless one is already last) and
compiles it case-insensitive with dot-matches-newline; every match of a
compiled regex that is structurally anchored on both sides (`^…$` at the
top level, as the wrapping produces for alternation-free patterns) covers
the full content; but the textual wrapping does *not* guarantee that
structure — with a top-level alternation a partial match can classify, as
the counterexample shows. -/
theorem C4_regex_anchoring :
    (∀ p : String,
      (strStartsWith p "^" = false → strEndsWith p "$" = false →
        wrapPattern p = ("^" ++ p) ++ "$") ∧
      (strStartsWith p "^" = true → strEndsWith p "$" = true → wrapPattern p = p) ∧
      (strStartsWith p "^" = true → strEndsWith p "$" = false → wrapPattern p = p ++ "$") ∧
      (strStartsWith p "^" = false → strEndsWith p "$" = true → wrapPattern p = "^" ++ p)) ∧
    (∀ (p : String) (cr : CompiledRegex), parse_regex p = some cr →
      cr.flags.ci = true ∧ cr.flags.dotall = true ∧ cr.flags.multiline = false) ∧
    (∀ (cr : CompiledRegex) (s : String) (b e : Nat) (caps : Caps),
      startsAnchored cr.re = true → endsAnchored cr.re = true →
      cr.flags.multiline = false →
      reCaptures cr s = some (b, e, caps) → b = 0 ∧ e = s.data.length) := by
  refine ⟨?_, ?_, ?_⟩
  · intro p
    refine ⟨?_, ?_, ?_, ?_⟩
    · intro h1 h2
      simp [wrapPattern, h1, h2, strEndsWith_caret]
    · intro h1 h2
      simp [wrapPattern, h1, h2]
    · intro h1 h2
      simp [wrapPattern, h1, h2]
    · intro h1 h2
      simp [wrapPattern, h1, h2, strEndsWith_caret]
  · intro p cr h
    have hfl : cr.flags = { ci := true, dotall := true } := by
      unfold parse_regex at h
      exact buildRegex_flags _ _ _ h
    rw [hfl]
    exact ⟨rfl, rfl, rfl⟩
  · intro cr s b e caps hs he hm h
    unfold reCaptures at h
    have hmem := reFindFrom_mem cr.flags s.data cr.re (s.data.length + 1) 0 b e caps h
    constructor
    · exact matchAtF_startsAnchored cr.flags s.data hm cr.re hs
        (matchFuel s.data cr.re) b [] (e, caps) hmem
    · exact matchAtF_endsAnchored cr.flags s.data hm cr.re he
        (matchFuel s.data cr.re) b [] (e, caps) hmem

/-- Compiled fixture pattern `(?P<content>x)|y` as `parse_regex` compiles
it (wrapped to `^(?P<content>x)|y$`). -/
def c4Pattern : CompiledRegex :=
  match parse_regex "(?P<content>x)|y" with
  | some cr => cr
  | none => ⟨.eps, {}⟩

/-- Fixture member using `c4Pattern`. -/
def c4Member : Member := ⟨"why", c4Pattern, "token", none, none, none⟩

/-- Fixture message of content `xz`. -/
def c4Message : FullMessage := ⟨31, 5, 100, "xz", ⟨1000000⟩, none⟩

/-- C4 (counterexample): the claim says a match that does not cover the
full content never classifies the message as the member's proxy.  For the
member pattern `(?P<content>x)|y`, the wrapped regex `^(?P<content>x)|y$`
anchors only the alternation branches, so on content `xz` (length 2) it
matches the span [0,1) — not the full content — and
`matches_proxy_prefix` still classifies, returning capture `x`. -/
theorem C4_counterexample :
    parse_regex "(?P<content>x)|y" = some c4Pattern ∧
    reCaptures c4Pattern "xz" = some (0, 1, [("content", 0, 1)]) ∧
    ("xz" : String).data.length = 2 ∧
    c4Member.matchesProxyPat c4Message = some "x" := by
  refine ⟨by decide, by decide, by decide, by decide⟩

/-- Compiled fixture pattern `a`, anchored by the wrap to `^a$`. -/
def c4AnchoredPattern : CompiledRegex :=
  match parse_regex "a" with
  | some cr => cr
  | none => ⟨.eps, {}⟩

/-- C4 (witness): the anchoring theorem's full-cover part applied at the
concrete anchored pattern `^a$` on content `a`. -/
theorem C4_regex_anchoring_witness :
    (0 : Nat) = 0 ∧ (1 : Nat) = ("a" : String).data.length :=
  (C4_regex_anchoring).2.2 c4AnchoredPattern "a" 0 1 []
    (by decide) (by decide) (by decide) (by decide)

/-! ## Claim C9 — the latch is only populated under a Latch policy -/

/-- Helper: one status update never touches the latch. -/
theorem update_status_of_member_latch
    (config : SystemConfig) (clients : List MemberId) (st : ManagerState)
    (member : MemberId) (status : Status) (r : ManagerState × List ManagerAction)
    (h : update_status_of_member config clients st member status = some r) :
    r.1.latch_state = st.latch_state := by
  unfold update_status_of_member at h
  by_cases h1 : status = (presenceLookup st.last_presence member).getD .Offline
  · rw [if_pos h1] at h
    cases h
    rfl
  · rw [if_neg h1] at h
    by_cases h2 : member ∈ clients
    · rw [if_pos h2] at h
      cases h
      rfl
    · rw [if_neg h2] at h
      cases h3 : find_member_by_id config member with
      | none => rw [h3] at h; cases h
      | some _ => rw [h3] at h; cases h; rfl

/-- Helper: the status fold never touches the latch. -/
theorem status_fold_latch (config : SystemConfig) (clients : List MemberId) :
    ∀ (ms : List (MemberId × Status)) (acc : ManagerState × List ManagerAction)
      (r : ManagerState × List ManagerAction),
      ms.foldlM
        (fun acc ms => do
          let (st', acts) ← update_status_of_member config clients acc.1 ms.1 ms.2
          pure (st', acc.2 ++ acts)) acc = some r →
      r.1.latch_state = acc.1.latch_state := by
  intro ms
  induction ms with
  | nil =>
      intro acc r h
      cases h
      rfl
  | cons hd tl ih =>
      intro acc r h
      rw [List.foldlM_cons] at h
      cases hstep : update_status_of_member config clients acc.1 hd.1 hd.2 with
      | none => rw [hstep] at h; cases h
      | some step =>
          rw [hstep] at h
          simp only [Option.bind_eq_bind, Option.some_bind] at h
          have h1 := ih (step.1, acc.2 ++ step.2) r h
          have h2 := update_status_of_member_latch config clients acc.1 hd.1 hd.2 step hstep
          rw [h1]
          exact h2

/-- Helper: presence reconciliation never touches the latch. -/
theorem update_status_of_system_latch
    (config : SystemConfig) (clients : List MemberId) (st : ManagerState)
    (r : ManagerState × List ManagerAction)
    (h : update_status_of_system config clients st = some r) :
    r.1.latch_state = st.latch_state := by
  unfold update_status_of_system at h
  exact status_fold_latch config clients _ _ _ h

/-- Helper: without a Latch policy, `handle_message` keeps an empty latch
empty. -/
theorem handle_message_latch_none
    (config : SystemConfig) (clients : List MemberId) (senderSet : Bool) (env : CallEnv)
    (st : ManagerState) (message : FullMessage) (timestamp : Timestamp) (res : HandleResult)
    (hpol : ∀ s t p, config.autoproxy ≠ some (.Latch s t p))
    (h : handle_message config clients senderSet env st message timestamp = some res)
    (hl : st.latch_state = none) :
    res.state.latch_state = none := by
  unfold handle_message at h
  by_cases hp : message.content = "!panic"
  · rw [if_pos hp] at h; cases h
  rw [if_neg hp] at h
  by_cases he : strStartsWith message.content "\\" = true
  · rw [if_pos he] at h
    by_cases he2 : message.content = "\\\\"
    · rw [if_pos he2] at h
      cases hc : escapeDeleteClient clients st.latch_state with
      | none => rw [hc] at h; cases h
      | some m =>
          rw [hc] at h
          by_cases hd : env.deleteSourceOk = true
          · rw [if_pos hd] at h
            cases h
            rfl
          · rw [if_neg hd] at h; cases h
    · rw [if_neg he2] at h
      by_cases he3 : strStartsWith message.content "\\\\" = true
      · rw [if_pos he3] at h
        cases h
        rfl
      · rw [if_neg he3] at h
        cases h
        exact hl
  · rw [if_neg he] at h
    cases hm : config.members.enum.findSome?
        (fun p => (p.2.matchesProxyPat message).map (fun c => (p.1, c))) with
    | some v =>
        obtain ⟨member_id, matched⟩ := v
        rw [hm] at h
        dsimp only at h
        cases hpm : proxy_message env message matched with
        | none => rw [hpm] at h; cases h
        | some proxyActs =>
            rw [hpm] at h
            dsimp only at h
            have hup : update_autoproxy_state_after_message config senderSet st member_id timestamp = (st, []) := by
              unfold update_autoproxy_state_after_message
              cases hap : config.autoproxy with
              | none => rfl
              | some ap =>
                  cases ap with
                  | Member name => rfl
                  | Latch s t p => exact absurd hap (hpol s t p)
            rw [hup] at h
            dsimp only at h
            cases hus : update_status_of_system config clients st with
            | none => rw [hus] at h; cases h
            | some r2 =>
                obtain ⟨st2, statusActs⟩ := r2
                rw [hus] at h
                dsimp only at h
                cases h
                have := update_status_of_system_latch config clients st (st2, statusActs) hus
                rw [this]
                exact hl
    | none =>
        rw [hm] at h
        dsimp only at h
        cases hap : config.autoproxy with
        | none =>
            rw [hap] at h
            dsimp only at h
            cases h
            exact hl
        | some ap =>
            cases ap with
            | Member name =>
                rw [hap] at h
                dsimp only at h
                cases hf : find_member_by_name config name with
                | none => rw [hf] at h; cases h
                | some v =>
                    obtain ⟨member_id, member⟩ := v
                    rw [hf] at h
                    dsimp only at h
                    cases hpm : proxy_message env message message.content with
                    | none => rw [hpm] at h; cases h
                    | some proxyActs =>
                        rw [hpm] at h
                        dsimp only at h
                        cases h
                        exact hl
            | Latch s t p => exact absurd hap (hpol s t p)

/-- C9: in every reachable state of a system whose autoproxy policy is not
`Latch` (absent or `Member`), the latch is empty: every manager event run
from the initial state keeps `latch_state = None`. -/
theorem C9_latch_requires_latch_policy
    (config : SystemConfig) (clients : List MemberId) (senderSet : Bool)
    (evs : List ManagerEvent) (st' : ManagerState)
    (hpol : ∀ s t p, config.autoproxy ≠ some (.Latch s t p))
    (h : managerRun config clients senderSet initialManagerState evs = some st') :
    st'.latch_state = none := by
  have aux : ∀ (evs : List ManagerEvent) (st st' : ManagerState),
      st.latch_state = none →
      managerRun config clients senderSet st evs = some st' →
      st'.latch_state = none := by
    intro evs
    induction evs with
    | nil =>
        intro st st' hl h
        cases h
        exact hl
    | cons ev tl ih =>
        intro st st' hl h
        unfold managerRun at h
        cases hstep : managerStep config clients senderSet st ev with
        | none => rw [hstep] at h; cases h
        | some st1 =>
            rw [hstep] at h
            refine ih st1 st' ?_ h
            cases ev with
            | NewMessage env message ts =>
                unfold managerStep at hstep
                dsimp only at hstep
                cases hh : handle_message config clients senderSet env st message ts with
                | none => rw [hh] at hstep; simp at hstep
                | some res =>
                    rw [hh] at hstep
                    simp only [Option.map_some'] at hstep
                    injection hstep with h1
                    rw [← h1]
                    exact handle_message_latch_none config clients senderSet env st message ts res hpol hh hl
            | Timeout ts =>
                unfold managerStep autoproxy_timeout_step at hstep
                dsimp only at hstep
                rw [hl] at hstep
                simp only [Option.map_some'] at hstep
                injection hstep with h1
                rw [← h1]
                exact hl
  exact aux evs initialManagerState st' rfl h

/-- C9 (witness): the invariant theorem applied at a concrete
`Member`-policy run of one message and one timeout. -/
theorem C9_latch_requires_latch_policy_witness :
    (⟨none, []⟩ : ManagerState).latch_state = none :=
  C9_latch_requires_latch_policy
    ⟨"100", [⟨"a", trivialPattern, "t", none, none, none⟩], false, some (.Member "a")⟩
    [0] true
    [.NewMessage ⟨.err .MessageValidation, true⟩ ⟨51, 5, 100, "\\x", ⟨1000000⟩, none⟩ ⟨1000000⟩,
     .Timeout ⟨1000000⟩]
    ⟨none, []⟩
    (by intro s t p; simp)
    (by decide)

/-! ## Claim C3 — latch timeout supersession -/

/-- Helper: under a Latch policy, with the clears of a run collected, the
cleared timestamps never repeat, provided the proxy timestamps of the run
are distinct. `dead` accumulates timestamps already cleared. -/
theorem latchRun_clears_nodup
    (config : SystemConfig) (clients : List MemberId) (senderSet : Bool)
    (s : AutoproxyLatchScope) (t : Nat) (p : Bool)
    (hl : config.autoproxy = some (.Latch s t p)) :
    ∀ (evs : List LatchEvent) (st : ManagerState) (dead : List Timestamp),
      dead.Nodup →
      (∀ m ts, st.latch_state = some (m, ts) → ts ∉ dead ∧ ts ∉ proxyTimestamps evs) →
      (∀ ts ∈ proxyTimestamps evs, ts ∉ dead) →
      (proxyTimestamps evs).Nodup →
      ∀ r, latchRun config clients senderSet st evs = some r →
      (dead ++ r.2.map (fun pr => pr.2)).Nodup := by
  intro evs
  induction evs with
  | nil =>
      intro st dead h1 _h2 _h3 _h4 r h
      cases h
      simpa using h1
  | cons ev tl ih =>
      intro st dead h1 h2 h3 h4 r h
      unfold latchRun at h
      cases ev with
      | proxy m ts =>
          have hstep : latchEventStep config clients senderSet st (.proxy m ts) =
              some ({ st with latch_state := some (m, ts) }, none) := by
            simp [latchEventStep, update_autoproxy_state_after_message, hl]
          rw [hstep] at h
          dsimp only at h
          cases hrun : latchRun config clients senderSet { st with latch_state := some (m, ts) } tl with
          | none => rw [hrun] at h; simp at h
          | some r' =>
              rw [hrun] at h
              simp only [Option.map_some'] at h
              injection h with h5
              have hts : ts :: proxyTimestamps tl = proxyTimestamps (.proxy m ts :: tl) := rfl
              have hmem : ts ∈ proxyTimestamps (LatchEvent.proxy m ts :: tl) := by
                rw [← hts]; exact List.mem_cons_self _ _
              have h2' : ∀ m' ts', ({ st with latch_state := some (m, ts) } : ManagerState).latch_state = some (m', ts') →
                  ts' ∉ dead ∧ ts' ∉ proxyTimestamps tl := by
                intro m' ts' hst
                simp only [Option.some.injEq, Prod.mk.injEq] at hst
                obtain ⟨-, rfl⟩ := hst
                refine ⟨h3 ts hmem, ?_⟩
                rw [← hts] at h4
                exact (List.nodup_cons.mp h4).1
              have h3' : ∀ ts' ∈ proxyTimestamps tl, ts' ∉ dead := by
                intro ts' hts'
                refine h3 ts' ?_
                rw [← hts]
                exact List.mem_cons_of_mem _ hts'
              have h4' : (proxyTimestamps tl).Nodup := by
                rw [← hts] at h4
                exact (List.nodup_cons.mp h4).2
              have := ih { st with latch_state := some (m, ts) } dead h1 h2' h3' h4' r' hrun
              rw [← h5]
              simpa using this
      | timeout ts =>
          cases hlatch : st.latch_state with
          | none =>
              have hstep : latchEventStep config clients senderSet st (.timeout ts) =
                  some (st, none) := by
                simp [latchEventStep, autoproxy_timeout_step, hlatch]
              rw [hstep] at h
              dsimp only at h
              cases hrun : latchRun config clients senderSet st tl with
              | none => rw [hrun] at h; simp at h
              | some r' =>
                  rw [hrun] at h
                  simp only [Option.map_some'] at h
                  injection h with h5
                  have h2' : ∀ m' ts', st.latch_state = some (m', ts') →
                      ts' ∉ dead ∧ ts' ∉ proxyTimestamps tl := by
                    intro m' ts' hst
                    rw [hlatch] at hst
                    cases hst
                  have := ih st dead h1 h2' h3 h4 r' hrun
                  rw [← h5]
                  simpa using this
          | some v =>
              obtain ⟨m, cur⟩ := v
              by_cases hc : cur = ts
              · subst hc
                cases hus : update_status_of_system config clients { st with latch_state := none } with
                | none =>
                    have hstep : latchEventStep config clients senderSet st (.timeout cur) = none := by
                      simp [latchEventStep, autoproxy_timeout_step, hlatch, hus]
                    rw [hstep] at h
                    cases h
                | some r2 =>
                    have hstep : latchEventStep config clients senderSet st (.timeout cur) =
                        some (r2.1, some (m, cur)) := by
                      simp [latchEventStep, autoproxy_timeout_step, hlatch, hus]
                    rw [hstep] at h
                    dsimp only at h
                    cases hrun : latchRun config clients senderSet r2.1 tl with
                    | none => rw [hrun] at h; simp at h
                    | some r' =>
                        rw [hrun] at h
                        simp only [Option.map_some'] at h
                        injection h with h5
                        have hr2latch : r2.1.latch_state = none := by
                          have := update_status_of_system_latch config clients
                            { st with latch_state := none } r2 hus
                          simpa using this
                        have hcurdead : cur ∉ dead := (h2 m cur hlatch).1
                        have hcurpts : cur ∉ proxyTimestamps tl := by
                          have := (h2 m cur hlatch).2
                          simpa [proxyTimestamps] using this
                        have h1' : (dead ++ [cur]).Nodup := by
                          rw [List.nodup_append]
                          exact ⟨h1, List.nodup_singleton cur, by
                            intro x hx hx2
                            rcases List.mem_singleton.mp hx2 with rfl
                            exact hcurdead hx⟩
                        have h2' : ∀ m' ts', r2.1.latch_state = some (m', ts') →
                            ts' ∉ (dead ++ [cur]) ∧ ts' ∉ proxyTimestamps tl := by
                          intro m' ts' hst
                          rw [hr2latch] at hst
                          cases hst
                        have h3' : ∀ ts' ∈ proxyTimestamps tl, ts' ∉ (dead ++ [cur]) := by
                          intro ts' hts'
                          rw [List.mem_append]
                          rintro (hin | hin)
                          · exact h3 ts' (by simpa [proxyTimestamps] using hts') hin
                          · rcases List.mem_singleton.mp hin with rfl
                            exact hcurpts hts'
                        have h4' : (proxyTimestamps tl).Nodup := by
                          simpa [proxyTimestamps] using h4
                        have hind := ih r2.1 (dead ++ [cur]) h1' h2' h3' h4' r' hrun
                        rw [← h5]
                        have htl : (some (m, cur)).toList ++ r'.2 = (m, cur) :: r'.2 := rfl
                        rw [htl, List.map_cons]
                        show (dead ++ cur :: r'.2.map (fun pr => pr.2)).Nodup
                        rw [List.append_cons]
                        exact hind
              · have hstep : latchEventStep config clients senderSet st (.timeout ts) =
                    some (st, none) := by
                  simp [latchEventStep, autoproxy_timeout_step, hlatch, hc]
                rw [hstep] at h
                dsimp only at h
                cases hrun : latchRun config clients senderSet st tl with
                | none => rw [hrun] at h; simp at h
                | some r' =>
                    rw [hrun] at h
                    simp only [Option.map_some'] at h
                    injection h with h5
                    have h2' : ∀ m' ts', st.latch_state = some (m', ts') →
                        ts' ∉ dead ∧ ts' ∉ proxyTimestamps tl := by
                      intro m' ts' hst
                      rw [hlatch] at hst
                      simp only [Option.some.injEq, Prod.mk.injEq] at hst
                      obtain ⟨-, rfl⟩ := hst
                      have := h2 m cur hlatch
                      simpa [proxyTimestamps] using this
                    have h3' : ∀ ts' ∈ proxyTimestamps tl, ts' ∉ dead := by
                      intro ts' hts'
                      exact h3 ts' (by simpa [proxyTimestamps] using hts')
                    have h4' : (proxyTimestamps tl).Nodup := by
                      simpa [proxyTimestamps] using h4
                    have := ih st dead h1 h2' h3' h4' r' hrun
                    rw [← h5]
                    simpa using this

/-- C3: under a Latch policy, (1) every latched proxy pass sets the latch to
`(member, ts)` and — with the sender wired — schedules a timeout carrying
exactly `ts`; (2) a timeout clears the latch iff its carried timestamp
equals the current latch timestamp; (3) a timeout whose carried timestamp
differs from the current latch timestamp changes nothing (superseded); and
(4) over any run whose proxy timestamps are distinct (as successive message
timestamps are), at most one clear fires per concrete `(member, ts)`
pair. -/
theorem C3_latch_timeout_supersession :
    (∀ (config : SystemConfig) (st : ManagerState) (member : MemberId) (ts : Timestamp)
       (s : AutoproxyLatchScope) (t : Nat) (p : Bool),
      config.autoproxy = some (.Latch s t p) →
      update_autoproxy_state_after_message config true st member ts =
        ({ st with latch_state := some (member, ts) }, [ts])) ∧
    (∀ (config : SystemConfig) (clients : List MemberId) (senderSet : Bool)
       (st : ManagerState) (ts : Timestamp) (r : ManagerState × Option (MemberId × Timestamp)),
      latchEventStep config clients senderSet st (.timeout ts) = some r →
      (r.2.isSome ↔ ∃ m, st.latch_state = some (m, ts))) ∧
    (∀ (config : SystemConfig) (clients : List MemberId) (st : ManagerState)
       (m : MemberId) (ts ts' : Timestamp),
      st.latch_state = some (m, ts') → ts ≠ ts' →
      autoproxy_timeout_step config clients st ts = some (st, [])) ∧
    (∀ (config : SystemConfig) (clients : List MemberId) (senderSet : Bool)
       (s : AutoproxyLatchScope) (t : Nat) (p : Bool)
       (evs : List LatchEvent) (r : ManagerState × List (MemberId × Timestamp)),
      config.autoproxy = some (.Latch s t p) →
      (proxyTimestamps evs).Nodup →
      latchRun config clients senderSet initialManagerState evs = some r →
      r.2.Nodup) := by
  refine ⟨?_, ?_, ?_, ?_⟩
  · intro config st member ts s t p hpol
    simp [update_autoproxy_state_after_message, hpol]
  · intro config clients senderSet st ts r h
    cases hlatch : st.latch_state with
    | none =>
        have hstep : latchEventStep config clients senderSet st (.timeout ts) =
            some (st, none) := by
          simp [latchEventStep, autoproxy_timeout_step, hlatch]
        rw [hstep] at h
        injection h with h1
        rw [← h1]
        simp [hlatch]
    | some v =>
        obtain ⟨m, cur⟩ := v
        by_cases hc : cur = ts
        · subst hc
          constructor
          · intro _
            exact ⟨m, rfl⟩
          · intro _
            cases hus : update_status_of_system config clients { st with latch_state := none } with
            | none =>
                have hstep : latchEventStep config clients senderSet st (.timeout cur) = none := by
                  simp [latchEventStep, autoproxy_timeout_step, hlatch, hus]
                rw [hstep] at h
                cases h
            | some r2 =>
                have hstep : latchEventStep config clients senderSet st (.timeout cur) =
                    some (r2.1, some (m, cur)) := by
                  simp [latchEventStep, autoproxy_timeout_step, hlatch, hus]
                rw [hstep] at h
                injection h with h1
                rw [← h1]
                simp
        · have hstep : latchEventStep config clients senderSet st (.timeout ts) =
              some (st, none) := by
            simp [latchEventStep, autoproxy_timeout_step, hlatch, hc]
          rw [hstep] at h
          injection h with h1
          rw [← h1]
          constructor
          · intro hs; simp at hs
          · rintro ⟨m', hm'⟩
            simp only [Option.some.injEq, Prod.mk.injEq] at hm'
            exact absurd hm'.2 hc
  · intro config clients st m ts ts' hlatch hne
    have hne' : ¬(ts' = ts) := fun hh => hne hh.symm
    simp [autoproxy_timeout_step, hlatch, hne']
  · intro config clients senderSet s t p evs r hpol hnd h
    have hstart : ∀ m ts, initialManagerState.latch_state = some (m, ts) →
        ts ∉ ([] : List Timestamp) ∧ ts ∉ proxyTimestamps evs := by
      intro m ts hst
      cases hst
    have hnodup := latchRun_clears_nodup config clients senderSet s t p hpol evs
      initialManagerState [] List.nodup_nil hstart (by intro ts hts; simp) hnd r h
    simp only [List.nil_append] at hnodup
    exact List.Nodup.of_map _ hnodup

/-- C3 (witness): the supersession theorem's run part at the spec's
scenario 4: proxy at 0s, proxy at 20s, timeout carrying 0s (superseded),
timeout carrying 20s (clears) — each pair cleared at most once. -/
theorem C3_latch_timeout_supersession_witness :
    ([(0, (⟨20000000⟩ : Timestamp))] : List (MemberId × Timestamp)).Nodup :=
  (C3_latch_timeout_supersession).2.2.2
    ⟨"100", [⟨"a", trivialPattern, "t", none, none, none⟩], false,
     some (.Latch .Global 30 true)⟩
    [0] true .Global 30 true
    [.proxy 0 ⟨0⟩, .proxy 0 ⟨20000000⟩, .timeout ⟨0⟩, .timeout ⟨20000000⟩]
    (⟨none, [(0, Status.Invisible)]⟩, [(0, ⟨20000000⟩)])
    (by decide) (by decide) (by decide)

/-! ## Claim C2 — dedup monotonicity -/

/-- Helper: filtering by a predicate the sought key satisfies vacuously
does not change a `find?`. -/
theorem find?_filter_of_imp {α : Type} (p q : α → Bool)
    (himp : ∀ x, p x = true → q x = true) :
    ∀ (l : List α), (l.filter q).find? p = l.find? p := by
  intro l
  induction l with
  | nil => rfl
  | cons a l ih =>
      cases hq : q a with
      | true =>
          rw [List.filter_cons_of_pos hq]
          cases hp : p a with
          | true => rw [List.find?_cons_of_pos _ hp, List.find?_cons_of_pos _ hp]
          | false => rw [List.find?_cons_of_neg _ (by simp [hp]), List.find?_cons_of_neg _ (by simp [hp])]; exact ih
      | false =>
          rw [List.filter_cons_of_neg (by simp [hq])]
          have hp : p a = false := by
            cases hpa : p a with
            | true => rw [himp a hpa] at hq; cases hq
            | false => rfl
          rw [List.find?_cons_of_neg _ (by simp [hp])]
          exact ih

/-- Helper: dropping the last element does not change a `find?` whose
predicate rejects it. -/
theorem find?_dropLast {α : Type} (p : α → Bool) :
    ∀ (l : List α), (∀ a, l.getLast? = some a → p a = false) →
      l.dropLast.find? p = l.find? p := by
  intro l
  induction l with
  | nil => intro _; rfl
  | cons a l ih =>
      intro hlast
      cases l with
      | nil =>
          have hp : p a = false := hlast a rfl
          simp [List.dropLast, List.find?, hp]
      | cons b t =>
          have hlast' : ∀ x, (b :: t).getLast? = some x → p x = false := by
            intro x hx
            exact hlast x (by rw [List.getLast?_cons_cons]; exact hx)
          rw [List.dropLast_cons₂]
          cases hp : p a with
          | true => rw [List.find?_cons_of_pos _ hp, List.find?_cons_of_pos _ hp]
          | false =>
              rw [List.find?_cons_of_neg _ (by simp [hp]), List.find?_cons_of_neg _ (by simp [hp])]
              exact ih hlast'

/-- Helper: the hit of `get` is the pure lookup. -/
theorem Lru.getPromote_fst {α β : Type} [DecidableEq α] (l : Lru α β) (k : α) :
    (l.getPromote k).1 = l.lookup k := by
  unfold Lru.getPromote Lru.lookup
  cases h : l.entries.find? (fun e => e.1 = k) with
  | none => rfl
  | some e => rfl

/-- Helper: promotion does not change any lookup. -/
theorem Lru.lookup_getPromote {α β : Type} [DecidableEq α] (l : Lru α β) (k k' : α) :
    ((l.getPromote k).2).lookup k' = l.lookup k' := by
  unfold Lru.getPromote
  cases h : l.entries.find? (fun e => e.1 = k) with
  | none => rfl
  | some e =>
      have hk : e.1 = k := by
        have := List.find?_some h
        simpa using this
      unfold Lru.lookup
      by_cases hkk : k' = k
      · subst hkk
        rw [List.find?_cons_of_pos _ (by simp)]
        rw [h]
        simp [hk]
      · rw [List.find?_cons_of_neg _ (by simp; intro hh; exact hkk hh.symm)]
        rw [find?_filter_of_imp _ _ ?_]
        intro x hx
        simp only [decide_eq_true_eq] at hx
        simp [hx, hkk]

/-- Helper: after a put, the key maps to the value. -/
theorem Lru.lookup_put_self {α β : Type} [DecidableEq α] (cap : Nat) (l : Lru α β) (k : α) (v : β) :
    ((Lru.put cap l k v).1).lookup k = some v := by
  unfold Lru.put Lru.lookup
  by_cases h1 : l.entries.any (fun e => e.1 = k)
  · rw [if_pos h1]
    rw [List.find?_cons_of_pos _ (by simp)]
    rfl
  · rw [if_neg h1]
    by_cases h2 : cap ≤ l.entries.length
    · rw [if_pos h2]
      rw [List.find?_cons_of_pos _ (by simp)]
      rfl
    · rw [if_neg h2]
      rw [List.find?_cons_of_pos _ (by simp)]
      rfl

/-- Helper: a put leaves every other, non-evicted key's lookup unchanged. -/
theorem Lru.lookup_put_other {α β : Type} [DecidableEq α] (cap : Nat) (l : Lru α β) (k k' : α) (v : β)
    (hne : k' ≠ k) (hev : k' ∉ (Lru.put cap l k v).2) :
    ((Lru.put cap l k v).1).lookup k' = l.lookup k' := by
  unfold Lru.put at hev ⊢
  by_cases h1 : l.entries.any (fun e => e.1 = k)
  · rw [if_pos h1]
    unfold Lru.lookup
    rw [List.find?_cons_of_neg _ (by simp; intro hh; exact hne hh.symm)]
    rw [find?_filter_of_imp _ _ ?_]
    intro x hx
    simp only [decide_eq_true_eq] at hx
    simp [hx, hne]
  · rw [if_neg h1]
    by_cases h2 : cap ≤ l.entries.length
    · rw [if_pos h2]
      rw [if_neg h1, if_pos h2] at hev
      unfold Lru.lookup
      rw [List.find?_cons_of_neg _ (by simp; intro hh; exact hne hh.symm)]
      rw [find?_dropLast _ _ ?_]
      intro a ha
      rw [ha] at hev
      simp only [Option.map_some', Option.toList_some, List.mem_singleton] at hev
      simp only [decide_eq_false_iff_not]
      intro hh
      exact hev hh.symm
    · rw [if_neg h2]
      unfold Lru.lookup
      rw [List.find?_cons_of_neg _ (by simp; intro hh; exact hne hh.symm)]

/-- Helper: the `Complete` arm of the aggregator, expressed through the
pure cache lookup. -/
theorem aggregatorStep_complete (cap : Nat) (cache : DedupCache) (ts : Timestamp)
    (message : FullMessage) (member_id : MemberId) :
    aggregatorStep cap cache (ts, .Complete message member_id) =
      match cache.lookup message.id with
      | some (previous_message, _) =>
          if effMicros previous_message ≥ effMicros message then
            ((cache.getPromote message.id).2, [], [], [])
          else
            (((cache.getPromote message.id).2.put cap message.id (message, member_id)).1, [],
              [.NewMessage ts message member_id],
              ((cache.getPromote message.id).2.put cap message.id (message, member_id)).2)
      | none =>
          (((cache.getPromote message.id).2.put cap message.id (message, member_id)).1, [],
            [.NewMessage ts message member_id],
            ((cache.getPromote message.id).2.put cap message.id (message, member_id)).2) := by
  unfold aggregatorStep
  dsimp only
  have hfst := Lru.getPromote_fst cache message.id
  rcases hget : cache.getPromote message.id with ⟨hit, cache1⟩
  rw [hget] at hfst
  dsimp only at hfst ⊢
  rw [← hfst]

/-- Helper: the `Partial` arm emits nothing for any message id, evicts
nothing, and leaves every lookup unchanged. -/
theorem aggregatorStep_partial_props (cap : Nat) (cache : DedupCache) (ts : Timestamp)
    (pm : PartialMessage) (member_id : MemberId) (id : MessageId) :
    emissionsFor id ((aggregatorStep cap cache (ts, .Partial pm member_id)).2.2.1) = [] ∧
    (aggregatorStep cap cache (ts, .Partial pm member_id)).2.2.2 = [] ∧
    ∀ k, ((aggregatorStep cap cache (ts, .Partial pm member_id)).1).lookup k = cache.lookup k := by
  unfold aggregatorStep
  dsimp only
  rcases hget : cache.getPromote pm.id with ⟨hit, cache1⟩
  have hlk : ∀ k, cache1.lookup k = cache.lookup k := by
    intro k
    have := Lru.lookup_getPromote cache pm.id k
    rw [hget] at this
    exact this
  dsimp only
  cases hit with
  | none => exact ⟨rfl, rfl, hlk⟩
  | some v =>
      obtain ⟨orig, cobs⟩ := v
      exact ⟨rfl, rfl, hlk⟩

/-- Helper: emissions split over appended output lists. -/
theorem emissionsFor_append (id : MessageId) (xs ys : List AggregatorOut) :
    emissionsFor id (xs ++ ys) = emissionsFor id xs ++ emissionsFor id ys := by
  unfold emissionsFor
  exact List.filterMap_append xs ys _

/-- Helper: over any event sequence that never evicts the tracked id, the
aggregator's emissions for that id keep strictly increasing effective
timestamps; `ems` accumulates the effective timestamps already emitted,
bounded by the cached entry. -/
theorem aggRun_chain (cap : Nat) (id : MessageId) :
    ∀ (evs : List MessageEvent) (cache : DedupCache) (ems : List Int),
      List.Chain' (· < ·) ems →
      (ems ≠ [] → ∃ msg obs, cache.lookup id = some (msg, obs) ∧ ∀ e ∈ ems, e ≤ effMicros msg) →
      id ∉ (aggregatorRun cap cache evs).2.2 →
      List.Chain' (· < ·) (ems ++ emissionsFor id (aggregatorRun cap cache evs).2.1) := by
  intro evs
  induction evs with
  | nil =>
      intro cache ems h1 _h2 _hev
      simpa [aggregatorRun, emissionsFor] using h1
  | cons ev tl ih =>
      obtain ⟨ts, gm⟩ := ev
      intro cache ems h1 h2 hev
      rcases hstep : aggregatorStep cap cache (ts, gm) with ⟨cache1, toSelf, outs, evd⟩
      rcases hrec : aggregatorRun cap cache1 tl with ⟨cacheF, outsF, evdF⟩
      have hrun : aggregatorRun cap cache ((ts, gm) :: tl) = (cacheF, outs ++ outsF, evd ++ evdF) := by
        simp only [aggregatorRun, hstep, hrec]
      rw [hrun] at hev ⊢
      dsimp only at hev ⊢
      have hev1 : id ∉ evd := fun hx => hev (List.mem_append.mpr (Or.inl hx))
      have hev2 : id ∉ evdF := fun hx => hev (List.mem_append.mpr (Or.inr hx))
      rw [emissionsFor_append, ← List.append_assoc]
      have ihready : List.Chain' (· < ·) (ems ++ emissionsFor id outs) →
          ((ems ++ emissionsFor id outs) ≠ [] →
            ∃ msg obs, cache1.lookup id = some (msg, obs) ∧
              ∀ e ∈ ems ++ emissionsFor id outs, e ≤ effMicros msg) →
          List.Chain' (· < ·) ((ems ++ emissionsFor id outs) ++ emissionsFor id outsF) := by
        intro hc hi
        have := ih cache1 (ems ++ emissionsFor id outs) hc hi (by rw [hrec]; exact hev2)
        rw [hrec] at this
        exact this
      cases gm with
      | Partial pm mid =>
          have hprops := aggregatorStep_partial_props cap cache ts pm mid id
          rw [hstep] at hprops
          dsimp only at hprops
          obtain ⟨hout, _hevd, hlk⟩ := hprops
          refine ihready ?_ ?_
          · rw [hout]
            simpa using h1
          · intro hne
            rw [hout] at hne
            simp only [List.append_nil] at hne
            obtain ⟨msg, obs, hl, hb⟩ := h2 hne
            refine ⟨msg, obs, by rw [hlk]; exact hl, ?_⟩
            intro e he
            rw [hout] at he
            simp only [List.append_nil] at he
            exact hb e he
      | Complete message mid =>
          have hcomp := aggregatorStep_complete cap cache ts message mid
          rw [hstep] at hcomp
          cases hlook : cache.lookup message.id with
          | some v =>
              obtain ⟨prev, pobs⟩ := v
              rw [hlook] at hcomp
              dsimp only at hcomp
              by_cases hge : effMicros prev ≥ effMicros message
              · rw [if_pos hge] at hcomp
                have hc1 : cache1 = (cache.getPromote message.id).2 := by
                  have := congrArg (fun r => r.1) hcomp
                  simpa using this
                have houts : outs = ([] : List AggregatorOut) := by
                  have := congrArg (fun r => r.2.2.1) hcomp
                  simpa using this
                have hemsout : emissionsFor id outs = [] := by
                  rw [houts]
                  rfl
                refine ihready ?_ ?_
                · rw [hemsout]
                  simpa using h1
                · intro hne
                  rw [hemsout] at hne
                  simp only [List.append_nil] at hne
                  obtain ⟨msg, obs, hl, hb⟩ := h2 hne
                  refine ⟨msg, obs, ?_, ?_⟩
                  · rw [hc1, Lru.lookup_getPromote]
                    exact hl
                  · intro e he
                    rw [hemsout] at he
                    simp only [List.append_nil] at he
                    exact hb e he
              · rw [if_neg hge] at hcomp
                have hc1 : cache1 =
                    ((cache.getPromote message.id).2.put cap message.id (message, mid)).1 := by
                  have := congrArg (fun r => r.1) hcomp
                  simpa using this
                have houts : outs = [.NewMessage ts message mid] := by
                  have := congrArg (fun r => r.2.2.1) hcomp
                  simpa using this
                have hevdv : evd =
                    ((cache.getPromote message.id).2.put cap message.id (message, mid)).2 := by
                  have := congrArg (fun r => r.2.2.2) hcomp
                  simpa using this
                by_cases hid : message.id = id
                · subst hid
                  have hemsout : emissionsFor message.id outs = [effMicros message] := by
                    rw [houts]
                    simp [emissionsFor]
                  have hlt : effMicros prev < effMicros message := lt_of_not_ge hge
                  refine ihready ?_ ?_
                  · rw [hemsout]
                    rw [List.chain'_append]
                    refine ⟨h1, List.chain'_singleton _, ?_⟩
                    intro x hx y hy
                    simp only [List.head?_cons, Option.mem_def, Option.some.injEq] at hy
                    subst hy
                    have hne : ems ≠ [] := by
                      intro hemp
                      rw [hemp] at hx
                      simp at hx
                    obtain ⟨msg, obs, hl, hb⟩ := h2 hne
                    rw [hlook] at hl
                    injection hl with hl1
                    have hprev : msg = prev := by
                      have := congrArg Prod.fst hl1
                      simp at this
                      exact this.symm
                    have hx2 : x ∈ ems := List.mem_of_mem_getLast? hx
                    have := hb x hx2
                    rw [hprev] at this
                    exact lt_of_le_of_lt this hlt
                  · intro _
                    refine ⟨message, mid, ?_, ?_⟩
                    · rw [hc1, Lru.lookup_put_self]
                    · intro e he
                      rw [hemsout] at he
                      rcases List.mem_append.mp he with he1 | he2
                      · have hne : ems ≠ [] := fun hemp => by rw [hemp] at he1; cases he1
                        obtain ⟨msg, obs, hl, hb⟩ := h2 hne
                        rw [hlook] at hl
                        injection hl with hl1
                        have hprev : msg = prev := by
                          have := congrArg Prod.fst hl1
                          simp at this
                          exact this.symm
                        have := hb e he1
                        rw [hprev] at this
                        exact le_of_lt (lt_of_le_of_lt this hlt)
                      · rcases List.mem_singleton.mp he2 with rfl
                        exact le_refl _
                · have hemsout : emissionsFor id outs = [] := by
                    rw [houts]
                    simp [emissionsFor, hid]
                  refine ihready ?_ ?_
                  · rw [hemsout]
                    simpa using h1
                  · intro hne
                    rw [hemsout] at hne
                    simp only [List.append_nil] at hne
                    obtain ⟨msg, obs, hl, hb⟩ := h2 hne
                    refine ⟨msg, obs, ?_, ?_⟩
                    · rw [hc1]
                      rw [Lru.lookup_put_other cap _ message.id id _ (fun hh => hid hh.symm) ?_]
                      · rw [Lru.lookup_getPromote]
                        exact hl
                      · rw [← hevdv]
                        exact hev1
                    · intro e he
                      rw [hemsout] at he
                      simp only [List.append_nil] at he
                      exact hb e he
          | none =>
              rw [hlook] at hcomp
              dsimp only at hcomp
              have hc1 : cache1 =
                  ((cache.getPromote message.id).2.put cap message.id (message, mid)).1 := by
                have := congrArg (fun r => r.1) hcomp
                simpa using this
              have houts : outs = [.NewMessage ts message mid] := by
                have := congrArg (fun r => r.2.2.1) hcomp
                simpa using this
              have hevdv : evd =
                  ((cache.getPromote message.id).2.put cap message.id (message, mid)).2 := by
                have := congrArg (fun r => r.2.2.2) hcomp
                simpa using this
              by_cases hid : message.id = id
              · subst hid
                have hemsout : emissionsFor message.id outs = [effMicros message] := by
                  rw [houts]
                  simp [emissionsFor]
                have hems : ems = [] := by
                  by_contra hne
                  obtain ⟨msg, obs, hl, _⟩ := h2 hne
                  rw [hlook] at hl
                  cases hl
                subst hems
                refine ihready ?_ ?_
                · rw [hemsout]
                  simp
                · intro _
                  refine ⟨message, mid, ?_, ?_⟩
                  · rw [hc1, Lru.lookup_put_self]
                  · intro e he
                    rw [hemsout] at he
                    simp only [List.nil_append, List.mem_singleton] at he
                    subst he
                    exact le_refl _
              · have hemsout : emissionsFor id outs = [] := by
                  rw [houts]
                  simp [emissionsFor, hid]
                refine ihready ?_ ?_
                · rw [hemsout]
                  simpa using h1
                · intro hne
                  rw [hemsout] at hne
                  simp only [List.append_nil] at hne
                  obtain ⟨msg, obs, hl, hb⟩ := h2 hne
                  refine ⟨msg, obs, ?_, ?_⟩
                  · rw [hc1]
                    rw [Lru.lookup_put_other cap _ message.id id _ (fun hh => hid hh.symm) ?_]
                    · rw [Lru.lookup_getPromote]
                      exact hl
                    · rw [← hevdv]
                      exact hev1
                  · intro e he
                    rw [hemsout] at he
                    simp only [List.append_nil] at he
                    exact hb e he

/-- C2 (amended): the `Complete` arm computes the effective timestamp
(`edited_timestamp ?? timestamp`), drops the event iff a cached entry for
the message id has effective timestamp at least the incoming one, and
otherwise stores the message and emits exactly one `NewMessage`; and the
emitted effective timestamps for a given id are strictly increasing over
any event sequence during which the id's cache entry is never evicted from
the bounded LRU (the counterexample shows eviction breaks unconditional
monotonicity). -/
theorem C2_dedup_monotonicity :
    (∀ (cap : Nat) (cache : DedupCache) (ts : Timestamp) (message : FullMessage)
       (member : MemberId),
      ((aggregatorStep cap cache (ts, .Complete message member)).2.2.1 = [] ↔
        ∃ prev obs, cache.lookup message.id = some (prev, obs) ∧
          effMicros message ≤ effMicros prev) ∧
      ((aggregatorStep cap cache (ts, .Complete message member)).2.2.1 ≠ [] →
        (aggregatorStep cap cache (ts, .Complete message member)).2.2.1 =
          [.NewMessage ts message member] ∧
        ((aggregatorStep cap cache (ts, .Complete message member)).1).lookup message.id =
          some (message, member))) ∧
    (∀ (cap : Nat) (evs : List MessageEvent) (id : MessageId),
      id ∉ (aggregatorRun cap Lru.empty evs).2.2 →
      List.Chain' (· < ·) (emissionsFor id (aggregatorRun cap Lru.empty evs).2.1)) := by
  constructor
  · intro cap cache ts message member
    have hcomp := aggregatorStep_complete cap cache ts message member
    cases hlook : cache.lookup message.id with
    | some v =>
        obtain ⟨prev, pobs⟩ := v
        rw [hlook] at hcomp
        dsimp only at hcomp
        by_cases hge : effMicros prev ≥ effMicros message
        · rw [if_pos hge] at hcomp
          rw [hcomp]
          constructor
          · constructor
            · intro _
              exact ⟨prev, pobs, rfl, hge⟩
            · intro _
              rfl
          · intro hne
            exact absurd rfl hne
        · rw [if_neg hge] at hcomp
          rw [hcomp]
          constructor
          · constructor
            · intro hemp
              cases hemp
            · rintro ⟨prev2, obs2, hl2, hle⟩
              injection hl2 with hl2
              have : prev2 = prev := by
                have := congrArg Prod.fst hl2
                simp at this
                exact this.symm
              rw [this] at hle
              exact absurd hle hge
          · intro _
            exact ⟨rfl, Lru.lookup_put_self _ _ _ _⟩
    | none =>
        rw [hlook] at hcomp
        dsimp only at hcomp
        rw [hcomp]
        constructor
        · constructor
          · intro hemp
            cases hemp
          · rintro ⟨prev2, obs2, hl2, _⟩
            cases hl2
        · intro _
          exact ⟨rfl, Lru.lookup_put_self _ _ _ _⟩
  · intro cap evs id hid
    have := aggRun_chain cap id evs Lru.empty [] List.chain'_nil
      (fun hemp => absurd rfl hemp) hid
    simpa using this

/-- Fixture messages for the eviction counterexample (ids 1, 2, 3;
effective timestamps in microseconds). -/
def c2m1 : FullMessage := ⟨1, 5, 100, "one", ⟨10⟩, none⟩

/-- Fixture message with id 2. -/
def c2m2 : FullMessage := ⟨2, 5, 100, "two", ⟨20⟩, none⟩

/-- Fixture message with id 3. -/
def c2m3 : FullMessage := ⟨3, 5, 100, "three", ⟨30⟩, none⟩

/-- Event sequence: ids 1, 2, 3 then a stale duplicate of id 1, against a
dedup cache of capacity 2 (one member: `LruCache::new(system_size * 2)`). -/
def c2Events : List MessageEvent :=
  [(⟨10⟩, .Complete c2m1 0), (⟨20⟩, .Complete c2m2 0),
   (⟨30⟩, .Complete c2m3 0), (⟨10⟩, .Complete c2m1 0)]

/-- C2 (counterexample): the claim says the `NewMessage` effective
timestamps for a given id are strictly increasing.  With the bounded LRU
(capacity 2·members = 2), message id 3 evicts id 1, so a cross-bot
duplicate of id 1 with the *same* effective timestamp is emitted again:
the emissions for id 1 are [10, 10], not strictly increasing. -/
theorem C2_counterexample :
    emissionsFor 1 (aggregatorRun 2 Lru.empty c2Events).2.1 = [10, 10] ∧
    ¬ List.Chain' (· < ·) ([10, 10] : List Int) ∧
    (aggregatorRun 2 Lru.empty c2Events).2.2 = [1, 2] := by
  refine ⟨by decide, ?_, by decide⟩
  intro h
  exact absurd ((List.chain'_cons.mp h).1) (by decide)

/-- C2 (witness): the amended monotonicity theorem applied at a concrete
eviction-free run (id 1 at effective 10 then 20). -/
theorem C2_dedup_monotonicity_witness :
    List.Chain' (· < ·)
      (emissionsFor 1
        (aggregatorRun 2 Lru.empty
          [(⟨10⟩, .Complete c2m1 0),
           (⟨20⟩, .Complete (⟨1, 5, 100, "one", ⟨10⟩, some ⟨20⟩⟩ : FullMessage) 0)]).2.1) :=
  (C2_dedup_monotonicity).2 2
    [(⟨10⟩, .Complete c2m1 0),
     (⟨20⟩, .Complete (⟨1, 5, 100, "one", ⟨10⟩, some ⟨20⟩⟩ : FullMessage) 0)] 1
    (by decide)

end Seance
